import Mathlib

/-!
# Verification of `sherpa/algorithms/core.py`

Shallow embedding of the suggestion-algorithm framework of the sherpa
hyperparameter-tuning library, together with proofs about the embedded
operations.

Modelling conventions used throughout:

* Objective values are rationals (`ℚ`); a pandas `NaN` objective is modelled
  as `none` in an `Option ℚ` column.
* A Python `dict` of parameter values is modelled either as a list of values
  aligned with a fixed parameter list, or as an association list, depending on
  how the source manipulates it.
* The `Stop` sentinel (Python `None`) is the `none` of an `Option` result;
  the `Wait` sentinel of `Repeat` gets its own constructor.
* Randomness (calls to `random` / `numpy.random` / `Parameter.sample`) is
  modelled by explicit oracle arguments: a function supplying the value that
  the random source would have produced.  All theorems hold for every oracle,
  hence for every realisation of the randomness.
-/

/-! ## Helpers shared by several embedded components -/

/-- `collectDistinct l` keeps the first occurrence of every value of `l`,
in order.  This is the accumulator loop
`if value not in prange: prange.append(value)` used by `Iterate.get_parameters`
(and mirrors the distinct group keys of a pandas `groupby` up to key order). -/
def collectDistinct {α : Type} [DecidableEq α] (l : List α) : List α :=
  l.foldl (fun acc v => if v ∈ acc then acc else acc ++ [v]) []

/-- Head-recursive formulation of "distinct values in first-seen order".
This follows the specification's words; the refinement theorems below relate
it to the accumulator loop `collectDistinct` taken from the source. -/
def firstSeenDistinct {α : Type} [DecidableEq α] : List α → List α
  | [] => []
  | v :: vs => v :: (firstSeenDistinct vs).filter (fun w => w ≠ v)

/-- Minimum of a nonempty list; `d` is returned for `[]` (the sources only
apply it to nonempty lists, where Python `min` is defined). -/
def listMin (d : ℚ) : List ℚ → ℚ
  | [] => d
  | x :: xs => xs.foldl min x

/-- Maximum of a nonempty list; `d` is returned for `[]`. -/
def listMax (d : ℚ) : List ℚ → ℚ
  | [] => d
  | x :: xs => xs.foldl max x

/-- `numpy.clip(x, lo, hi)`: the lower bound is applied first, then the upper
bound (so for `lo > hi` the upper bound wins, as in numpy). -/
def npClip (x lo hi : ℚ) : ℚ := min (max x lo) hi

/-- Python `int(x)` on a rational: truncation toward zero. -/
def pyInt (x : ℚ) : ℤ := Int.tdiv x.num (x.den : ℤ)

/-! ## MedianStoppingRule (`core.py` lines 430-504) -/

/-- One row of the results table as read by `MedianStoppingRule`:
`Trial-ID`, `Iteration` and `Objective` columns.  A `NaN` objective is
`none`. -/
structure ResultRow where
  trialId : ℕ
  iteration : ℕ
  objective : Option ℚ
deriving DecidableEq, Repr

/-- `results.loc[results['Trial-ID'] == tid]`. -/
def trialRowsOf (results : List ResultRow) (tid : ℕ) : List ResultRow :=
  results.filter (fun r => r.trialId = tid)

/-- Best-so-far objective of a list of objective cells: pandas
`Series.min` / `Series.max` with `skipna=True`; `none` (NaN) when no finite
value is present. -/
def bestObjVal (lower_is_better : Bool) (objs : List (Option ℚ)) : Option ℚ :=
  match objs.filterMap id with
  | [] => none
  | x :: xs => some (if lower_is_better then xs.foldl min x else xs.foldl max x)

/-- Median of an already sorted list of rationals: middle element for odd
length, average of the two middle elements for even length, `none` for `[]`. -/
def medianSorted (l : List ℚ) : Option ℚ :=
  if l.length = 0 then none
  else if l.length % 2 = 1 then l.get? (l.length / 2)
  else
    match l.get? (l.length / 2 - 1), l.get? (l.length / 2) with
    | some a, some b => some ((a + b) / 2)
    | _, _ => none

/-- Insertion step of a stable sort (used for `numpy` median and for pandas
`sort_values`). -/
def insertSorted {α : Type} (le : α → α → Bool) (x : α) : List α → List α
  | [] => [x]
  | y :: ys => if le x y then x :: y :: ys else y :: insertSorted le x ys

/-- Stable insertion sort by the boolean relation `le`. -/
def sortListBy {α : Type} (le : α → α → Bool) (l : List α) : List α :=
  l.foldr (insertSorted le) []

/-- `numpy.nanmedian`: median of the non-NaN entries; NaN (`none`) when no
finite entry exists. -/
def nanmedian (vals : List (Option ℚ)) : Option ℚ :=
  medianSorted (sortListBy (fun a b => decide (a ≤ b)) (vals.filterMap id))

/-- `MedianStoppingRule.__init__` fields. -/
structure MedianStoppingRule where
  min_iterations : ℕ
  min_trials : ℕ

/-- The comparison values collected by the loop over
`set(results['Trial-ID']) - {trial.id}` in `should_trial_stop`.  Trial ids
are visited in first-appearance order (the Python `set` order is
unspecified; the median and the count used afterwards do not depend on the
order).  A trial id coming from the table always has at least one row, so
its max iteration is always `some`; the `none` branch mirrors the Python
behaviour on an empty slice (NaN comparisons are false, the NaN best value
is appended). -/
def comparisonVals (rule : MedianStoppingRule) (results : List ResultRow)
    (tid : ℕ) (lower_is_better : Bool) : List (Option ℚ) :=
  ((collectDistinct (results.map (·.trialId))).filter (fun t2 => t2 ≠ tid)).filterMap
    (fun t2 =>
      let rows2 := trialRowsOf results t2
      match (rows2.map (·.iteration)).max? with
      | none => some none
      | some mi =>
        if mi < rule.min_iterations then none
        else some (bestObjVal lower_is_better
          ((rows2.filter (fun r => r.iteration ≤ mi)).map (·.objective))))

/-- `MedianStoppingRule.should_trial_stop` (`core.py` lines 457-504).
`tid` is `trial.id`. -/
def MedianStoppingRule.should_trial_stop (rule : MedianStoppingRule)
    (tid : ℕ) (results : List ResultRow) (lower_is_better : Bool) : Bool :=
  if results.length = 0 then false
  else
    let trial_rows := trialRowsOf results tid
    let max_iteration := (trial_rows.map (·.iteration)).max?
    -- `max_iteration < self.min_iterations`: a NaN max (no rows) compares false
    if (match max_iteration with
        | none => false
        | some mi => decide (mi < rule.min_iterations)) then false
    else
      let trial_obj_val := bestObjVal lower_is_better (trial_rows.map (·.objective))
      if trial_obj_val.isNone && !trial_rows.isEmpty then true
      else
        let cvals := comparisonVals rule results tid lower_is_better
        if cvals.length < rule.min_trials then false
        else
          match trial_obj_val, nanmedian cvals with
          | some v, some med =>
            if lower_is_better then decide (med < v) else decide (v < med)
          | _, _ => false

/-- Results table for the `MedianStoppingRule` scenarios of the testable
properties: trial 1 has best-so-far objective 5, trials 2 and 3 have
best-so-far objectives `a` and `b`, all past iteration 0. -/
def msrTable (a b : ℚ) : List ResultRow :=
  [⟨1, 0, some 5⟩, ⟨2, 0, some a⟩, ⟨3, 0, some b⟩]

/-! ## Algorithm base class (`core.py` lines 39-80) -/

/-- `Algorithm.load` default implementation: a no-op (`pass`). -/
def Algorithm.load {σ : Type} (num_trials : ℕ) (s : σ) : σ := s

/-- One row of the results table as read by `Algorithm.get_best_result`:
the `Status` column, the `Objective` column (NaN modelled as `none`) and the
remaining columns as an association list. -/
structure BestRow where
  status : String
  objective : Option ℚ
  rest : List (String × ℚ)
deriving DecidableEq, Repr

/-- pandas `Series.idxmin` / `Series.idxmax` with `skipna=True` on the
`Objective` column: raises `ValueError` on an empty series (`.error ()`),
returns NaN (`.ok none`) when every entry is NaN, and otherwise the first
index attaining the extremum among the non-NaN entries. -/
def idxBest (lower_is_better : Bool) (objs : List (Option ℚ)) :
    Except Unit (Option ℕ) :=
  if objs.length = 0 then .error ()
  else
    match objs.filterMap id with
    | [] => .ok none
    | x :: xs =>
      let best := if lower_is_better then xs.foldl min x else xs.foldl max x
      .ok (objs.findIdx? (fun o => o = some best))

/-- `Algorithm.get_best_result` (`core.py` lines 66-80).  The returned
mapping is `row.to_dict()` with the `Status` key popped; the empty mapping is
`[]`.  `.error ()` models the `ValueError` that pandas raises out of
`idxmin`/`idxmax` on an empty `Objective` series. -/
def Algorithm.get_best_result (results : List BestRow) (lower_is_better : Bool) :
    Except Unit (List (String × Option ℚ)) :=
  match idxBest lower_is_better (results.map (·.objective)) with
  | .error _ => .error ()
  | .ok none => .ok []
  | .ok (some i) =>
    match results.get? i with
    | none => .ok []
    | some row =>
      .ok (("Objective", row.objective) :: row.rest.map (fun p => (p.1, some p.2)))

/-! ## RandomSearch (`core.py` lines 135-170) -/

/-- The mutable fields of `RandomSearch`: `i` (number of sampled configs),
`j` (number of trials submitted with the current config) and `theta_i`
(current config).  `n` and `m` are the immutable constructor arguments. -/
structure RandomSearchState (C : Type) where
  i : ℕ
  j : ℕ
  theta_i : C
deriving DecidableEq, Repr

/-- Fresh `RandomSearch` instance; `d` stands for the initial empty dict
`theta_i = {}` (it is overwritten before it is ever returned). -/
def RandomSearch.init {C : Type} (d : C) : RandomSearchState C := ⟨0, 0, d⟩

/-- `RandomSearch.get_suggestion` (`core.py` lines 154-170).
`n` is `max_num_trials` (the constructor replaces `None` by `2**32`),
`m` is `repeat`, and `sample t` is the config produced by the `t`-th
evaluation of `{p.name: p.sample() for p in parameters}`.  The second
component is the returned suggestion, `none` being the Stop sentinel. -/
def RandomSearch.get_suggestion {C : Type} (n m : ℕ) (sample : ℕ → C)
    (s : RandomSearchState C) : RandomSearchState C × Option C :=
  let j0 := if s.j = m then 0 else s.j
  let i1 := if j0 = 0 then s.i + 1 else s.i
  let θ1 := if j0 = 0 then sample s.i else s.theta_i
  if n < i1 then (⟨i1, j0, θ1⟩, none)
  else (⟨i1, j0 + 1, θ1⟩, some θ1)

/-- State of a `RandomSearch` instance after `t` calls to `get_suggestion`. -/
def RandomSearch.run {C : Type} (n m : ℕ) (sample : ℕ → C) (d : C) : ℕ → RandomSearchState C
  | 0 => RandomSearch.init d
  | t + 1 => (RandomSearch.get_suggestion n m sample (RandomSearch.run n m sample d t)).1

/-- Value returned by the `t+1`-st call to `get_suggestion` (0-indexed `t`). -/
def RandomSearch.out {C : Type} (n m : ℕ) (sample : ℕ → C) (d : C) (t : ℕ) : Option C :=
  (RandomSearch.get_suggestion n m sample (RandomSearch.run n m sample d t)).2

/-! ## Iterate (`core.py` lines 175-224) -/

/-- `Iterate.get_suggestion` (`core.py` lines 189-196): the state is the
`count` cursor into the fixed list `hp_iter`. -/
def Iterate.get_suggestion {C : Type} (hp_iter : List C) (count : ℕ) : ℕ × Option C :=
  if h : count < hp_iter.length then (count + 1, some (hp_iter.get ⟨count, h⟩))
  else (count, none)

/-- `Iterate.load` (`core.py` lines 198-199): `self.count = num_trials`. -/
def Iterate.load (num_trials : ℕ) (_count : ℕ) : ℕ := num_trials

/-- `count` of an `Iterate` instance after `t` calls to `get_suggestion`. -/
def Iterate.run {C : Type} (hp_iter : List C) : ℕ → ℕ
  | 0 => 0
  | t + 1 => (Iterate.get_suggestion hp_iter (Iterate.run hp_iter t)).1

/-- Value returned by the `t+1`-st call to `Iterate.get_suggestion`. -/
def Iterate.out {C : Type} (hp_iter : List C) (t : ℕ) : Option C :=
  (Iterate.get_suggestion hp_iter (Iterate.run hp_iter t)).2

/-! ## GridSearch traversal (`core.py` lines 250-278) -/

/-- Mutable fields of `GridSearch`: the lazily built `grid` (`none` until the
first call), `i`, `j` and `theta_i`. -/
structure GridSearchState (C : Type) where
  i : ℕ
  j : ℕ
  grid : Option (List C)
  theta_i : C
deriving DecidableEq, Repr

/-- Fresh `GridSearch` instance (`grid = None`). -/
def GridSearch.init {C : Type} (d : C) : GridSearchState C := ⟨0, 0, none, d⟩

/-- `GridSearch.get_suggestion` (`core.py` lines 258-278).  `build` is the
grid computed from the (study-immutable) parameters by
`list(sklearn.model_selection.ParameterGrid(param_dict))`; `m` is `repeat`.
The second component is the suggestion, `none` being Stop. -/
def GridSearch.get_suggestion {C : Type} (build : List C) (m : ℕ) (d : C)
    (s : GridSearchState C) : GridSearchState C × Option C :=
  let g : List C := if s.i = 0 ∧ s.j = 0 then build else s.grid.getD []
  let i1 := if s.j = m then s.i + 1 else s.i
  let j1 := if s.j = m then 0 else s.j
  if i1 = g.length then (⟨i1, j1, some g, s.theta_i⟩, none)
  else
    let θ1 := if j1 = 0 then g.getD i1 d else s.theta_i
    (⟨i1, j1 + 1, some g, θ1⟩, some θ1)

/-- State of a `GridSearch` instance after `t` calls to `get_suggestion`. -/
def GridSearch.run {C : Type} (build : List C) (m : ℕ) (d : C) : ℕ → GridSearchState C
  | 0 => GridSearch.init d
  | t + 1 => (GridSearch.get_suggestion build m d (GridSearch.run build m d t)).1

/-- Value returned by the `t+1`-st call to `GridSearch.get_suggestion`. -/
def GridSearch.out {C : Type} (build : List C) (m : ℕ) (d : C) (t : ℕ) : Option C :=
  (GridSearch.get_suggestion build m d (GridSearch.run build m d t)).2

/-! ## Genetic stop logic (`core.py` lines 649-685) -/

/-- `Genetic.get_suggestion` reduced to its control skeleton: `maxN` is
`max_num_trials` (`0` models Python's falsy `None`/`0`), `count` the state,
and `sug` the configuration produced by the crossover/mutation body for this
call (an oracle covering `_get_candidate` and the per-parameter draws). -/
def Genetic.get_suggestion {C : Type} (maxN : ℕ) (sug : C) (count : ℕ) :
    ℕ × Option C :=
  if maxN ≠ 0 ∧ maxN ≤ count then (count, none)
  else (count + 1, some sug)

/-- `count` of a `Genetic` instance after `t` calls, with `sugs` the oracle
for the configuration built on each call. -/
def Genetic.run {C : Type} (maxN : ℕ) (sugs : ℕ → C) : ℕ → ℕ
  | 0 => 0
  | t + 1 => (Genetic.get_suggestion maxN (sugs t) (Genetic.run maxN sugs t)).1

/-- Value returned by the `t+1`-st call to `Genetic.get_suggestion`. -/
def Genetic.out {C : Type} (maxN : ℕ) (sugs : ℕ → C) (t : ℕ) : Option C :=
  (Genetic.get_suggestion maxN (sugs t) (Genetic.run maxN sugs t)).2

/-! ## GridSearch grid construction (`core.py` lines 280-304) -/

/-- `_get_param_dict` values for a `Continuous` parameter on linear scale:
`v = range[1] - range[0]; v *= (i+1)/(num_grid_points+1); v += range[0]`,
for `i in range(num_grid_points)`.  Exact rational arithmetic models the
floating-point computation. -/
def GridSearch.linearValues (lo hi : ℚ) (k : ℕ) : List ℚ :=
  (List.range k).map (fun i : ℕ => (hi - lo) * (((i : ℚ) + 1) / ((k : ℚ) + 1)) + lo)

/-- `_get_param_dict` values for a `Discrete` parameter on linear scale:
the continuous value is truncated by Python `int()`. -/
def GridSearch.linearDiscreteValues (lo hi : ℚ) (k : ℕ) : List ℚ :=
  (List.range k).map (fun i : ℕ =>
    ((pyInt ((hi - lo) * (((i : ℚ) + 1) / ((k : ℚ) + 1)) + lo) : ℤ) : ℚ))

/-- `_get_param_dict` values for a `Continuous` parameter on log scale:
`v = log10(hi) - log10(lo); v *= (i+1)/(k+1); v += log10(lo); v = 10**v`.
Floating point is modelled by real arithmetic. -/
noncomputable def GridSearch.logValues (lo hi : ℝ) (k : ℕ) : List ℝ :=
  (List.range k).map (fun i : ℕ =>
    (10 : ℝ) ^ ((Real.logb 10 hi - Real.logb 10 lo) * (((i : ℝ) + 1) / ((k : ℝ) + 1))
      + Real.logb 10 lo))

/-- Python `int(x)` on a real: truncation toward zero. -/
noncomputable def pyIntR (x : ℝ) : ℤ := if 0 ≤ x then ⌊x⌋ else ⌈x⌉

/-- `_get_param_dict` values for a `Discrete` parameter on log scale:
the `10**v` value is truncated by Python `int()` inside the log branch
(`core.py` lines 291-292). -/
noncomputable def GridSearch.logDiscreteValues (lo hi : ℝ) (k : ℕ) : List ℝ :=
  (List.range k).map (fun i : ℕ =>
    ((pyIntR ((10 : ℝ) ^ ((Real.logb 10 hi - Real.logb 10 lo)
      * (((i : ℝ) + 1) / ((k : ℝ) + 1)) + Real.logb 10 lo)) : ℤ) : ℝ))

/-- The cartesian product built by
`list(sklearn.model_selection.ParameterGrid(param_dict))`: one grid point per
choice of one candidate value per parameter. -/
def parameterGrid {α : Type} : List (List α) → List (List α)
  | [] => [[]]
  | vs :: rest => vs.flatMap (fun v => (parameterGrid rest).map (fun g => v :: g))

/-! ## LocalSearch (`core.py` lines 307-409) -/

/-- The four parameter kinds dispatched on by `LocalSearch._perturb` and
`_get_next_trials`. -/
inductive ParamKind
  | choice
  | ordinal
  | continuous
  | discrete
deriving DecidableEq, Repr

/-- A declared parameter as consumed by `LocalSearch`: its kind and its
`range` list (for `Continuous`/`Discrete` the two bounds, for
`Choice`/`Ordinal` the value list).  Parameter names are modelled by
positions: a configuration dict is the list of values aligned with the
parameter list. -/
structure LSParam where
  kind : ParamKind
  range : List ℚ
deriving DecidableEq, Repr

/-- `LocalSearch._perturb` (`core.py` lines 376-409) for the parameter at
position `idx`.  `factors` is `perturbation_factors = (decrease, increase)`. -/
def LocalSearch.perturb (factors : ℚ × ℚ) (p : LSParam) (idx : ℕ)
    (candidate : List ℚ) (increase : Bool) : List ℚ :=
  match p.kind with
  | .ordinal =>
    let values := p.range
    let shift : ℤ := if increase then 1 else -1
    let newidx : ℤ :=
      min (max ((values.indexOf (candidate.getD idx 0) : ℤ) + shift) 0)
        ((values.length : ℤ) - 1)
    candidate.set idx (values.getD newidx.toNat 0)
  | _ =>
    let factor := if increase then factors.2 else factors.1
    let v0 := candidate.getD idx 0 * factor
    let v1 := if p.kind = .discrete then ((pyInt v0 : ℤ) : ℚ) else v0
    candidate.set idx (npClip v1 (listMin 0 p.range) (listMax 0 p.range))

/-- The flattened sequence of candidate configurations tried by the nested
loops of `_get_next_trials` (`core.py` lines 352-370), in trial order.
`pord` is the order `random.sample(parameters, len(parameters))` produced
(as positions into `params`); `vord pi` is the order
`random.sample(param.range, len(param.range))` produced for the choice
parameter at position `pi`; `dord pi` is the order
`random.sample([True, False], 2)` produced for the non-choice parameter at
position `pi`. -/
def LocalSearch.candidates (params : List LSParam) (factors : ℚ × ℚ)
    (pord : List ℕ) (vord : ℕ → List ℚ) (dord : ℕ → List Bool)
    (seed : List ℚ) : List (List ℚ) :=
  pord.flatMap (fun pi =>
    match params.get? pi with
    | none => []
    | some p =>
      if p.kind = .choice then (vord pi).map (fun val => seed.set pi val)
      else (dord pi).map (fun incr => LocalSearch.perturb factors p pi seed incr))

/-- The candidate sequence with the canonical (non-randomized) orders: all
parameters in declaration order, all choice values in range order, increase
before decrease.  Every randomized candidate sequence enumerates a subset of
these configurations. -/
def LocalSearch.allPerturbations (params : List LSParam) (factors : ℚ × ℚ)
    (seed : List ℚ) : List (List ℚ) :=
  LocalSearch.candidates params factors (List.range params.length)
    (fun pi => (params.get? pi).elim [] (·.range)) (fun _ => [true, false]) seed

/-- Mutable fields of `LocalSearch` relevant to one call with
`repeat_trials = 1`: `count`, the `submitted` list and the current
`seed_configuration`.  (`next_trial` empties on every call when
`repeat_trials = 1`, so it is not part of the state.) -/
structure LocalSearchState where
  count : ℕ
  submitted : List (List ℚ)
  seed : List ℚ
deriving DecidableEq, Repr

/-- The per-call random draws of `_get_next_trials`, plus `reseed`: the
parameter values of the best completed row of the results table, or `none`
when the table has no completed rows (in which case `seed_configuration` is
left unchanged). -/
structure LSOracle where
  reseed : Option (List ℚ)
  pord : List ℕ
  vord : ℕ → List ℚ
  dord : ℕ → List Bool

/-- One `get_suggestion` call of `LocalSearch` with `repeat_trials = 1`
(`core.py` lines 330-374): the internal queue empties on every call, so each
call runs `_get_next_trials` once and returns its single element (`none` is
the Stop sentinel `None`). -/
def LocalSearch.step (params : List LSParam) (factors : ℚ × ℚ)
    (st : LocalSearchState) (o : LSOracle) : LocalSearchState × Option (List ℚ) :=
  if st.count + 1 = 1 then
    (⟨1, st.submitted ++ [st.seed], st.seed⟩, some st.seed)
  else
    let seed := o.reseed.getD st.seed
    match (LocalSearch.candidates params factors o.pord o.vord o.dord seed).find?
        (fun c => decide (c ∉ st.submitted)) with
    | some c => (⟨st.count + 1, st.submitted ++ [c], seed⟩, some c)
    | none => (⟨st.count + 1, st.submitted, seed⟩, none)

/-- State of a `LocalSearch` instance after `t` calls, with per-call oracles
`os`. -/
def LocalSearch.run (params : List LSParam) (factors : ℚ × ℚ)
    (seed0 : List ℚ) (os : ℕ → LSOracle) : ℕ → LocalSearchState
  | 0 => ⟨0, [], seed0⟩
  | t + 1 => (LocalSearch.step params factors
      (LocalSearch.run params factors seed0 os t) (os t)).1

/-- Value returned by the `t+1`-st call to `LocalSearch.get_suggestion`. -/
def LocalSearch.out (params : List LSParam) (factors : ℚ × ℚ)
    (seed0 : List ℚ) (os : ℕ → LSOracle) (t : ℕ) : Option (List ℚ) :=
  (LocalSearch.step params factors (LocalSearch.run params factors seed0 os t) (os t)).2

/-! ## Repeat (`core.py` lines 83-132) -/

/-- One row of the results table as read by `Repeat.get_suggestion`:
the declared parameter-value columns (as the tuple of values), `Status` and
`Objective` (NaN modelled as `none`). -/
structure RepeatRow where
  params : List ℚ
  status : String
  objective : Option ℚ
deriving DecidableEq, Repr

/-- One row of the aggregated table handed to the wrapped algorithm:
group key (parameter values), `Status`, mean `Objective`, the `count`
column, and `varObjective`.  `Objective` is `none` when the group has no
non-NaN objective; `varObjective` is `none` (NaN) when the group has fewer
than two non-NaN objectives, matching pandas `var` with `ddof=1`. -/
structure AggRow where
  params : List ℚ
  status : String
  objective : Option ℚ
  count : ℕ
  varObjective : Option ℚ
deriving DecidableEq, Repr

/-- The aggregation row produced for group key `k` of the completed rows:
pandas `groupby(...).agg(['mean', 'var', 'count'])` on `Objective`, with
`mean` and `count` skipping NaN and `var` using `ddof=1`, followed by
`varObjective = var / count`. -/
def Repeat.aggRowOf (completed : List RepeatRow) (k : List ℚ) : AggRow :=
  let objs := (completed.filter (fun r => r.params = k)).filterMap (·.objective)
  let cnt := objs.length
  let mean : Option ℚ := if cnt = 0 then none else some (objs.sum / (cnt : ℚ))
  let var : Option ℚ :=
    if 2 ≤ cnt then
      some ((objs.map (fun x => (x - objs.sum / (cnt : ℚ)) ^ 2)).sum / (((cnt - 1 : ℕ)) : ℚ))
    else none
  ⟨k, "COMPLETED", mean, cnt, var.map (fun v => v / (cnt : ℚ))⟩

/-- The `aggregate_results` pipeline of `Repeat.get_suggestion`
(`core.py` lines 109-124): filter to COMPLETED rows, group by the parameter
columns plus `Status` (constant `'COMPLETED'` after the filter), aggregate
`Objective`, derive `varObjective`, and keep the groups with
`count >= num_times`.  pandas sorts the group keys; the sort only permutes
the rows, and the theorems below only use membership, so keys appear here in
first-seen order. -/
def Repeat.aggregate (num_times : ℕ) (results : List RepeatRow) : List AggRow :=
  let completed := results.filter (fun r => r.status = "COMPLETED")
  ((collectDistinct (completed.map (·.params))).map (Repeat.aggRowOf completed)).filter
    (fun r => num_times ≤ r.count)

/-- Group rows following the claim's words, for comparison with
`Repeat.aggregate`: the COMPLETED groups whose plain row count is at least
`num_times`, with `Objective` the mean of all the group's objectives (NaN
when any of them is NaN) and `varObjective` the variance over all rows
divided by the row count. -/
def Repeat.claimGroups (num_times : ℕ) (results : List RepeatRow) : List AggRow :=
  let completed := results.filter (fun r => r.status = "COMPLETED")
  ((collectDistinct (completed.map (·.params))).map (fun k =>
    let rows := completed.filter (fun r => r.params = k)
    let cnt := rows.length
    let mean : Option ℚ :=
      if (rows.map (·.objective)).all (·.isSome) ∧ cnt ≠ 0 then
        some ((rows.filterMap (·.objective)).sum / (cnt : ℚ))
      else none
    let var : Option ℚ :=
      if (rows.map (·.objective)).all (·.isSome) ∧ 2 ≤ cnt then
        some (((rows.filterMap (·.objective)).map
          (fun x => (x - (rows.filterMap (·.objective)).sum / (cnt : ℚ)) ^ 2)).sum
          / (((cnt - 1 : ℕ)) : ℚ))
      else none
    AggRow.mk k "COMPLETED" mean cnt (var.map (fun v => v / (cnt : ℚ))))).filter
    (fun r => num_times ≤ r.count)

/-- Mutable fields of `Repeat`: the suggestion queue and `prev_completed`.
The queue holds the wrapped algorithm's outputs (of abstract type `Sug`,
which includes that algorithm's own Stop sentinel). -/
structure RepeatState (Sug : Type) where
  queue : List Sug
  prev_completed : ℕ
deriving DecidableEq, Repr

/-- Result of one `Repeat.get_suggestion` call: the `AlgorithmState.WAIT`
sentinel, a value popped from the queue, or the `IndexError` of
`list.pop()` on an empty list (unreachable for `num_times ≥ 1`). -/
inductive RepeatOut (Sug : Type)
  | wait
  | sug (s : Sug)
  | error
deriving DecidableEq, Repr

/-- `Repeat.get_suggestion` (`core.py` lines 106-132).  `inner` is the
wrapped algorithm's `get_suggestion` as a function of the results table it
is handed (`none` models Python `None`); its other two arguments, and any
internal state, are fixed for this one call. -/
def Repeat.get_suggestion {Sug : Type} (num_times : ℕ) (wait_for_completion : Bool)
    (inner : Option (List AggRow) → Sug) (st : RepeatState Sug)
    (results : Option (List RepeatRow)) : RepeatState Sug × RepeatOut Sug :=
  if st.queue.length = 0 then
    match results with
    | some res =>
      if res.length ≠ 0 then
        let completed := res.filter (fun r => r.status = "COMPLETED")
        if wait_for_completion ∧ completed.length < st.prev_completed + num_times then
          (st, .wait)
        else
          let suggestion := inner (some (Repeat.aggregate num_times res))
          let queue1 := st.queue ++ List.replicate num_times suggestion
          match queue1.getLast? with
          | some s => (⟨queue1.dropLast, st.prev_completed + num_times⟩, .sug s)
          | none => (⟨queue1, st.prev_completed + num_times⟩, .error)
      else
        let suggestion := inner none
        let queue1 := st.queue ++ List.replicate num_times suggestion
        match queue1.getLast? with
        | some s => (⟨queue1.dropLast, st.prev_completed⟩, .sug s)
        | none => (⟨queue1, st.prev_completed⟩, .error)
    | none =>
      let suggestion := inner none
      let queue1 := st.queue ++ List.replicate num_times suggestion
      match queue1.getLast? with
      | some s => (⟨queue1.dropLast, st.prev_completed⟩, .sug s)
      | none => (⟨queue1, st.prev_completed⟩, .error)
  else
    match st.queue.getLast? with
    | some s => (⟨st.queue.dropLast, st.prev_completed⟩, .sug s)
    | none => (st, .error)

/-! ## PopulationBasedTraining (`core.py` lines 534-646) -/

/-- The bookkeeping fields `PopulationBasedTraining.get_suggestion` attaches
to a suggestion.  `save_to` and `load_from` are decimal strings of counts in
the source (`str(count)` / `str(int(...))`); they are modelled by the
numbers themselves, with `none` for the empty string `''`.  `lineage` is a
comma-terminated concatenation of decimal identifiers; it is modelled by the
list of its comma-separated components (appending `id + ','` appends one
component).  The parameter values of the suggestion are irrelevant to the
bookkeeping invariants and are omitted: `_perturb` rewrites only the
`param.name` keys and leaves `load_from`, `save_to` and `lineage` intact. -/
structure PBTTrial where
  saveTo : ℕ
  loadFrom : Option ℕ
  lineage : List ℕ
  generation : ℕ
deriving DecidableEq, Repr

/-- One row of the results table as read by `_truncation_selection`: the
bookkeeping columns written back by the orchestrator, plus `Status` and
`Objective`. -/
structure PBTRow where
  trial : PBTTrial
  status : String
  objective : ℚ
deriving DecidableEq, Repr

/-- `self.generation = (self.count - 1) // self.population_size + 1`. -/
def PBT.generationOf (population_size count : ℕ) : ℕ :=
  (count - 1) / population_size + 1

/-- The sorted generation table of `_truncation_selection`
(`core.py` lines 591-595): COMPLETED rows of generation `g`, sorted by
`Objective`, ascending iff `lower_is_better`. -/
def PBT.generation_df (g : ℕ) (rows : List PBTRow) (lower_is_better : Bool) :
    List PBTRow :=
  sortListBy
    (fun a b => if lower_is_better then decide (a.objective ≤ b.objective)
      else decide (b.objective ≤ a.objective))
    ((rows.filter (fun r => r.status = "COMPLETED")).filter
      (fun r => r.trial.generation = g))

/-- `_truncation_selection` (`core.py` lines 582-608) reduced to the
selected row: for `slot/population_size < 0.8` the row at index `slot` of
the sorted generation is continued; otherwise a random index below
`population_size // 5` (supplied by the oracle `pick`) is perturbed.
`none` models the `IndexError` of `iloc` when the generation has too few
completed rows. -/
def PBT.truncation_selection (population_size count : ℕ) (rows : List PBTRow)
    (lower_is_better : Bool) (pick : ℕ) : Option PBTTrial :=
  let gdf := PBT.generation_df (PBT.generationOf population_size count - 1)
    rows lower_is_better
  let slot := (count - 1) % population_size
  let idx := if slot * 5 < population_size * 4 then slot else pick
  (gdf.get? idx).map (·.trial)

/-- The bookkeeping part of `PopulationBasedTraining.get_suggestion`
(`core.py` lines 562-580), producing the suggestion of call number
`countPrev + 1` (`self.count` after its increment).  Generation-1 params
come from the internal `RandomSearch` and are omitted (see `PBTTrial`). -/
def PBT.get_suggestion (population_size countPrev : ℕ) (rows : List PBTRow)
    (lower_is_better : Bool) (pick : ℕ) : Option PBTTrial :=
  let count := countPrev + 1
  let generation := PBT.generationOf population_size count
  if generation = 1 then
    some ⟨count, none, [], 1⟩
  else
    (PBT.truncation_selection population_size count rows lower_is_better pick).map
      (fun d =>
        { saveTo := count
          loadFrom := some d.saveTo
          lineage := d.lineage ++ [d.saveTo]
          generation := generation })

/-- An unbroken ancestry chain for trial `t` within the run whose
suggestions are `s 1, ..., s T`: either `t` is a generation-1 trial with
empty lineage and `load_from`, or its `load_from` is the `save_to` of a
generation `t.generation - 1` suggestion whose own chain is unbroken, and
its lineage extends that ancestor's lineage by that `save_to`.  The first
argument is fuel, instantiated with `t.generation`. -/
def PBT.chain (s : ℕ → PBTTrial) (T : ℕ) : ℕ → PBTTrial → Prop
  | 0, _ => False
  | g + 1, t =>
    (t.generation = 1 ∧ t.lineage = [] ∧ t.loadFrom = none) ∨
    (1 < t.generation ∧ ∃ j, 1 ≤ j ∧ j ≤ T ∧
      (s j).generation = t.generation - 1 ∧
      t.loadFrom = some ((s j).saveTo) ∧
      t.lineage = (s j).lineage ++ [(s j).saveTo] ∧
      PBT.chain s T g (s j))

/-! ## Iterate.get_parameters (`core.py` lines 201-224) -/

/-- Python `pname in hp` / `hp[pname]` on a configuration dict, modelled as
an association list (unhashable values are fine: keys are the strings). -/
def dictGet {V : Type} (hp : List (String × V)) (pname : String) : Option V :=
  (hp.find? (fun p => p.1 = pname)).map (·.2)

/-- The inner loop of `Iterate.get_parameters` for one parameter name:
scans the configurations in order (`i` is the running `enumerate` index),
raising on the first configuration missing the key and otherwise appending
each previously unseen value (`value not in prange`, a linear scan). -/
def Iterate.rangeLoop {V : Type} [DecidableEq V] (pname : String) :
    List (List (String × V)) → ℕ → List V → Except String (List V)
  | [], _, prange => .ok prange
  | hp :: rest, i, prange =>
    match dictGet hp pname with
    | none => .error ("Parameter " ++ pname ++ " not found in list item "
        ++ toString i ++ ".")
    | some value =>
      Iterate.rangeLoop pname rest (i + 1)
        (if value ∈ prange then prange else prange ++ [value])

/-- The derived categorical parameter: name and range. -/
structure ChoiceParam (V : Type) where
  name : String
  range : List V
deriving DecidableEq, Repr

/-- `Iterate.get_parameters` (`core.py` lines 201-224): for each key of the
first configuration, derive a `'choice'` parameter whose range is collected
by `Iterate.rangeLoop`.  The `Exception` is the `.error` message. -/
def Iterate.get_parameters {V : Type} [DecidableEq V]
    (hp_iter : List (List (String × V))) : Except String (List (ChoiceParam V)) :=
  ((hp_iter.headD []).map (·.1)).mapM (fun pname =>
    (Iterate.rangeLoop pname hp_iter 0 []).map (fun r => ChoiceParam.mk pname r))



/-- Closed form of the `RandomSearch` state after `t` calls (for `m ≥ 1`):
during the first `n*m` calls the instance is inside config number
`(t-1)/m + 1`, afterwards it samples one discarded config per call and
returns Stop. -/
def RandomSearch.ref {C : Type} (n m : ℕ) (sample : ℕ → C) (d : C) (t : ℕ) :
    RandomSearchState C :=
  if t = 0 then RandomSearch.init d
  else if t ≤ n * m then ⟨(t - 1) / m + 1, (t - 1) % m + 1, sample ((t - 1) / m)⟩
  else ⟨n + (t - n * m), 0, sample (n + (t - n * m) - 1)⟩

/-- The `GridSearch` state in which traversal is finished: the grid is
built, `i` points one past the last grid index and `j` is reset. -/
def GridSearch.stopState {C : Type} (build : List C) (s : GridSearchState C) : Prop :=
  s.i = build.length ∧ s.j = 0 ∧ s.grid = some build

/-- Invariant of every reachable `GridSearch` state (for `repeat = m ≥ 1`):
fresh, finished, or mid-way through repeating grid point `i`. -/
def GridSearch.inv {C : Type} (build : List C) (m : ℕ) (s : GridSearchState C) : Prop :=
  (s.i = 0 ∧ s.j = 0 ∧ (s.grid = none ∨ s.grid = some build)) ∨
  GridSearch.stopState build s ∨
  (s.grid = some build ∧ 1 ≤ s.j ∧ s.j ≤ m ∧ s.i < build.length)

/-- A single continuous parameter with range `[0, 100]`, for the
`LocalSearch` run below. -/
def lsCexParams : List LSParam := [⟨.continuous, [0, 100]⟩]

/-- Oracles for a `LocalSearch` run: no completed results until the fifth
call, whose results table has best completed row `[2]`; one parameter, both
perturbation directions, increase first. -/
def lsCexOracle : ℕ → LSOracle := fun t =>
  ⟨if t = 4 then some [2] else none, [0], fun _ => [], fun _ => [true, false]⟩

/-- A single choice parameter with range `{5, 7}`, for the witness run of
the `LocalSearch` theorems. -/
def lsWitParams : List LSParam := [⟨.choice, [5, 7]⟩]

/-- Oracles for the witness run: no completed results, canonical orders. -/
def lsWitOracle : ℕ → LSOracle :=
  fun _ => ⟨none, [0], fun _ => [5, 7], fun _ => [true, false]⟩

/-- Two COMPLETED repetitions of the same configuration `[1]`, one with a
NaN objective. -/
def repeatCexTable : List RepeatRow :=
  [⟨[1], "COMPLETED", some 1⟩, ⟨[1], "COMPLETED", none⟩]

/-- The two suggestions of a concrete PBT run with `population_size = 1`:
a generation-1 seed and its generation-2 continuation. -/
def pbtWitTrials : ℕ → PBTTrial :=
  fun c => if c = 2 then ⟨2, some 1, [1], 2⟩ else ⟨1, none, [], 1⟩

/-- Results tables of that run: by the second call the seed trial has
completed. -/
def pbtWitRes : ℕ → List PBTRow :=
  fun c => if c = 2 then [⟨⟨1, none, [], 1⟩, "COMPLETED", 0⟩] else []

/-! ## Theorems -/

/-- C1: For `MedianStoppingRule` with `min_iterations = 0`, `min_trials = 1`
and `lower_is_better = true`, a trial with best-so-far objective 5 is not
stopped against comparison trials with best-so-far objectives 3 and 10
(median 13/2), and is stopped against 1 and 2 (median 3/2).  The comparison
with the NaN-ignoring median is strict in both directions: with comparison
values 4 and 6 (median exactly 5) the trial is not stopped, and with
`lower_is_better = false` the trial is stopped against 6 and 10 (median 8)
but not against 4 and 6. -/
theorem median_stopping_rule_scenarios :
    MedianStoppingRule.should_trial_stop ⟨0, 1⟩ 1 (msrTable 3 10) true = false ∧
    MedianStoppingRule.should_trial_stop ⟨0, 1⟩ 1 (msrTable 1 2) true = true ∧
    MedianStoppingRule.should_trial_stop ⟨0, 1⟩ 1 (msrTable 4 6) true = false ∧
    MedianStoppingRule.should_trial_stop ⟨0, 1⟩ 1 (msrTable 6 10) false = true ∧
    MedianStoppingRule.should_trial_stop ⟨0, 1⟩ 1 (msrTable 4 6) false = false := by
  refine ⟨?_, ?_, ?_, ?_, ?_⟩ <;>
    norm_num [MedianStoppingRule.should_trial_stop, msrTable, trialRowsOf, bestObjVal,
      comparisonVals, collectDistinct, nanmedian, sortListBy, insertSorted,
      medianSorted, List.filterMap_cons, List.foldr_cons, List.foldr_nil,
      List.filter_cons, List.foldl_cons, List.foldl_nil, List.max?]

/-- C5: `get_best_result` on an empty results table propagates the
`ValueError` that pandas `Series.idxmin`/`idxmax` raises on an empty series
(`.error ()`), contradicting the claimed warning-and-empty-mapping recovery,
which the code only provides in the all-NaN nonempty case (second conjunct).
When a finite-objective row exists, the extremal row is returned with its
`Status` key removed (third and fourth conjuncts). -/
theorem get_best_result_empty_raises :
    Algorithm.get_best_result [] true = .error () ∧
    Algorithm.get_best_result
      [⟨"COMPLETED", none, [("x", 1)]⟩, ⟨"INTERMEDIATE", none, [("x", 2)]⟩] true = .ok [] ∧
    Algorithm.get_best_result
      [⟨"COMPLETED", some 3, [("x", 1)]⟩, ⟨"COMPLETED", some 1, [("x", 2)]⟩,
       ⟨"COMPLETED", some 2, [("x", 3)]⟩] true
      = .ok [("Objective", some 1), ("x", some 2)] ∧
    Algorithm.get_best_result
      [⟨"COMPLETED", some 3, [("x", 1)]⟩, ⟨"COMPLETED", some 1, [("x", 2)]⟩,
       ⟨"COMPLETED", some 2, [("x", 3)]⟩] false
      = .ok [("Objective", some 3), ("x", some 1)] := by
  refine ⟨?_, ?_, ?_, ?_⟩ <;>
    norm_num [Algorithm.get_best_result, idxBest, List.filterMap_cons,
      List.foldl_cons, List.foldl_nil, List.findIdx?, List.getElem_cons_succ,
      List.getElem_cons_zero, List.map_cons, List.map_nil] <;> decide

theorem RandomSearch.run_eq {C : Type} (n m : ℕ) (hm : 1 ≤ m) (sample : ℕ → C)
    (d : C) : ∀ t, RandomSearch.run n m sample d t = RandomSearch.ref n m sample d t := by
  have hm0 : 0 < m := hm
  have keyd : ∀ q r : ℕ, r < m → (m * q + r) / m = q := by
    intro q r h
    have e : m * q + r = r + q * m := by ring
    rw [e, Nat.add_mul_div_right _ _ hm0, Nat.div_eq_of_lt h]
    omega
  have keym : ∀ q r : ℕ, r < m → (m * q + r) % m = r := by
    intro q r h
    have e : m * q + r = r + q * m := by ring
    rw [e, Nat.add_mul_mod_self_right, Nat.mod_eq_of_lt h]
  intro t
  induction t with
  | zero => rfl
  | succ t ih =>
    rw [RandomSearch.run, ih]
    rcases Nat.eq_zero_or_pos t with h0 | hpos
    · subst h0
      have h0ref : RandomSearch.ref n m sample d 0 = ⟨0, 0, d⟩ := rfl
      rw [h0ref]
      rcases Nat.eq_zero_or_pos n with hn | hn
      · subst hn
        simp [RandomSearch.get_suggestion, RandomSearch.ref, ite_self]
      · have h2 : (1:ℕ) ≤ n * m := Nat.one_le_iff_ne_zero.mpr (by positivity)
        simp [RandomSearch.get_suggestion, RandomSearch.ref, ite_self,
          Nat.not_lt.mpr hn, h2]
    · obtain ⟨t2, rfl⟩ : ∃ t2, t = t2 + 1 := ⟨t - 1, by omega⟩
      rcases Nat.lt_or_ge (n * m) (t2 + 1) with hgt | hle
      · -- past the cap
        have href : RandomSearch.ref n m sample d (t2 + 1)
            = ⟨n + (t2 + 1 - n * m), 0, sample (n + (t2 + 1 - n * m) - 1)⟩ := by
          rw [RandomSearch.ref, if_neg (by omega), if_neg (by omega)]
        have href2 : RandomSearch.ref n m sample d (t2 + 1 + 1)
            = ⟨n + (t2 + 1 - n * m) + 1, 0, sample (n + (t2 + 1 - n * m))⟩ := by
          rw [RandomSearch.ref, if_neg (by omega), if_neg (by omega)]
          have e1 : t2 + 1 + 1 - n * m = (t2 + 1 - n * m) + 1 := by omega
          rw [e1]
          simp only [RandomSearchState.mk.injEq]
          refine ⟨by omega, trivial, ?_⟩
          have e2 : n + (t2 + 1 - n * m + 1) - 1 = n + (t2 + 1 - n * m) := by omega
          rw [e2]
        rw [href, href2]
        have h1 : n < n + (t2 + 1 - n * m) + 1 := by omega
        simp [RandomSearch.get_suggestion, ite_self, h1]
      · -- within the cap
        set q := (t2 + 1 - 1) / m with hq_def
        set rr := (t2 + 1 - 1) % m with hr_def
        have hq1 : q = t2 / m := by simp [hq_def]
        have hr1 : rr = t2 % m := by simp [hr_def]
        have hqm : m * q + rr = t2 := by rw [hq1, hr1]; exact Nat.div_add_mod t2 m
        have hrlt : rr < m := by rw [hr1]; exact Nat.mod_lt _ hm0
        have hqn : q < n := by
          rw [hq1]
          have hcomm : m * n = n * m := Nat.mul_comm m n
          exact Nat.div_lt_of_lt_mul (by omega)
        have href : RandomSearch.ref n m sample d (t2 + 1) = ⟨q + 1, rr + 1, sample q⟩ := by
          rw [RandomSearch.ref, if_neg (by omega), if_pos hle]
        rw [href]
        rcases Nat.lt_or_ge (rr + 1) m with hcase | hcase
        · -- no reset
          have hA : (q + 1) * m ≤ n * m := Nat.mul_le_mul_right _ (by omega)
          have hA2 : (q + 1) * m = m * q + m := by ring
          have hle2 : t2 + 1 + 1 ≤ n * m := by linarith
          have hdiv : (t2 + 1 + 1 - 1) / m = q := by
            have e : t2 + 1 + 1 - 1 = m * q + (rr + 1) := by omega
            rw [e, keyd _ _ hcase]
          have hmod : (t2 + 1 + 1 - 1) % m = rr + 1 := by
            have e : t2 + 1 + 1 - 1 = m * q + (rr + 1) := by omega
            rw [e, keym _ _ hcase]
          have href2 : RandomSearch.ref n m sample d (t2 + 1 + 1)
              = ⟨q + 1, rr + 1 + 1, sample q⟩ := by
            rw [RandomSearch.ref, if_neg (by omega), if_pos hle2, hdiv, hmod]
          rw [href2]
          simp [RandomSearch.get_suggestion, Nat.ne_of_lt hcase,
            Nat.not_lt.mpr (Nat.succ_le_of_lt hqn)]
        · -- reset: rr + 1 = m
          have hcase2 : rr + 1 = m := by omega
          rcases Nat.lt_or_ge (q + 1) n with hq2 | hq2
          · -- next config within the cap
            have hA : (q + 2) * m ≤ n * m := Nat.mul_le_mul_right _ (by omega)
            have hA2 : (q + 2) * m = m * q + m + m := by ring
            have hle2 : t2 + 1 + 1 ≤ n * m := by linarith
            have hdiv : (t2 + 1 + 1 - 1) / m = q + 1 := by
              have e : t2 + 1 + 1 - 1 = m * (q + 1) + 0 := by
                have : m * (q + 1) = m * q + m := by ring
                omega
              rw [e, keyd _ _ hm0]
            have hmod : (t2 + 1 + 1 - 1) % m = 0 := by
              have e : t2 + 1 + 1 - 1 = m * (q + 1) + 0 := by
                have : m * (q + 1) = m * q + m := by ring
                omega
              rw [e, keym _ _ hm0]
            have href2 : RandomSearch.ref n m sample d (t2 + 1 + 1)
                = ⟨q + 1 + 1, 0 + 1, sample (q + 1)⟩ := by
              rw [RandomSearch.ref, if_neg (by omega), if_pos hle2, hdiv, hmod]
            rw [href2]
            simp [RandomSearch.get_suggestion, hcase2, Nat.not_lt.mpr hq2]
          · -- the cap is hit: q + 1 = n
            have hq3 : q + 1 = n := by omega
            have hEq : t2 + 1 = n * m := by
              have e1 : n * m = m * q + m := by rw [← hq3]; ring
              omega
            have hgt2 : n * m < t2 + 1 + 1 := by omega
            have href2 : RandomSearch.ref n m sample d (t2 + 1 + 1)
                = ⟨n + (t2 + 1 + 1 - n * m), 0, sample (n + (t2 + 1 + 1 - n * m) - 1)⟩ := by
              rw [RandomSearch.ref, if_neg (by omega), if_neg (by omega)]
            have e2 : t2 + 1 + 1 - n * m = 1 := by rw [← hEq]; omega
            rw [href2, e2]
            have e3 : n + 1 - 1 = n := by omega
            rw [e3]
            simp [RandomSearch.get_suggestion, hcase2, hq3, Nat.lt_succ_self]


theorem RandomSearch.out_eq {C : Type} (n m : ℕ) (hm : 1 ≤ m) (sample : ℕ → C)
    (d : C) (t : ℕ) :
    RandomSearch.out n m sample d t
      = if t < n * m then some (sample (t / m)) else none := by
  have hm0 : 0 < m := hm
  have keyd : ∀ q r : ℕ, r < m → (m * q + r) / m = q := by
    intro q r h
    have e : m * q + r = r + q * m := by ring
    rw [e, Nat.add_mul_div_right _ _ hm0, Nat.div_eq_of_lt h]
    omega
  rw [RandomSearch.out, RandomSearch.run_eq n m hm sample d t]
  rcases Nat.eq_zero_or_pos t with h0 | hpos
  · subst h0
    have h0ref : RandomSearch.ref n m sample d 0 = ⟨0, 0, d⟩ := rfl
    rw [h0ref]
    rcases Nat.eq_zero_or_pos n with hn | hn
    · subst hn
      simp [RandomSearch.get_suggestion, ite_self]
    · have h2 : 0 < n * m := by positivity
      simp [RandomSearch.get_suggestion, ite_self, h2, Nat.not_lt.mpr hn, Nat.zero_div]
  · obtain ⟨t2, rfl⟩ : ∃ t2, t = t2 + 1 := ⟨t - 1, by omega⟩
    rcases Nat.lt_or_ge (n * m) (t2 + 1) with hgt | hle
    · have href : RandomSearch.ref n m sample d (t2 + 1)
          = ⟨n + (t2 + 1 - n * m), 0, sample (n + (t2 + 1 - n * m) - 1)⟩ := by
        rw [RandomSearch.ref, if_neg (by omega), if_neg (by omega)]
      rw [href, if_neg (by omega)]
      have h1 : n < n + (t2 + 1 - n * m) + 1 := by omega
      simp [RandomSearch.get_suggestion, ite_self, h1]
    · set q := (t2 + 1 - 1) / m with hq_def
      set rr := (t2 + 1 - 1) % m with hr_def
      have hq1 : q = t2 / m := by simp [hq_def]
      have hr1 : rr = t2 % m := by simp [hr_def]
      have hqm : m * q + rr = t2 := by rw [hq1, hr1]; exact Nat.div_add_mod t2 m
      have hrlt : rr < m := by rw [hr1]; exact Nat.mod_lt _ hm0
      have hqn : q < n := by
        rw [hq1]
        have hcomm : m * n = n * m := Nat.mul_comm m n
        exact Nat.div_lt_of_lt_mul (by omega)
      have href : RandomSearch.ref n m sample d (t2 + 1) = ⟨q + 1, rr + 1, sample q⟩ := by
        rw [RandomSearch.ref, if_neg (by omega), if_pos hle]
      rw [href]
      rcases Nat.lt_or_ge (rr + 1) m with hcase | hcase
      · have hA : (q + 1) * m ≤ n * m := Nat.mul_le_mul_right _ (by omega)
        have hA2 : (q + 1) * m = m * q + m := by ring
        have hlt : t2 + 1 < n * m := by omega
        have hdiv : (t2 + 1) / m = q := by
          have e : t2 + 1 = m * q + (rr + 1) := by omega
          rw [e, keyd _ _ hcase]
        rw [if_pos hlt, hdiv]
        simp [RandomSearch.get_suggestion, Nat.ne_of_lt hcase,
          Nat.not_lt.mpr (Nat.succ_le_of_lt hqn)]
      · have hcase2 : rr + 1 = m := by omega
        rcases Nat.lt_or_ge (q + 1) n with hq2 | hq2
        · have hA : (q + 2) * m ≤ n * m := Nat.mul_le_mul_right _ (by omega)
          have hA2 : (q + 2) * m = m * q + m + m := by ring
          have hlt : t2 + 1 < n * m := by omega
          have hdiv : (t2 + 1) / m = q + 1 := by
            have e : t2 + 1 = m * (q + 1) + 0 := by
              have : m * (q + 1) = m * q + m := by ring
              omega
            rw [e, keyd _ _ hm0]
          rw [if_pos hlt, hdiv]
          simp [RandomSearch.get_suggestion, hcase2, Nat.not_lt.mpr hq2]
        · have hq3 : q + 1 = n := by omega
          have hEq : t2 + 1 = n * m := by
            have e1 : n * m = m * q + m := by rw [← hq3]; ring
            omega
          rw [if_neg (by omega)]
          simp [RandomSearch.get_suggestion, hcase2, hq3, Nat.lt_succ_self]

/-- C6: For `RandomSearch` with `max_num_trials = n` and `repeat = m ≥ 1`,
the `t`-th call (0-indexed) returns the `⌊t/m⌋`-th sampled configuration for
`t < n*m` — so configuration `k` is returned on exactly the `m` consecutive
calls `k*m, ..., k*m + (m-1)`, identically — and every call from `n*m` on
returns the Stop sentinel. -/
theorem random_search_repeat_and_stop {C : Type} (n m : ℕ) (hm : 1 ≤ m)
    (sample : ℕ → C) (d : C) :
    (∀ k r, k < n → r < m →
      RandomSearch.out n m sample d (k * m + r) = some (sample k)) ∧
    (∀ t, n * m ≤ t → RandomSearch.out n m sample d t = none) := by
  have hm0 : 0 < m := hm
  constructor
  · intro k r hk hr
    rw [RandomSearch.out_eq n m hm sample d]
    have h1 : (k + 1) * m ≤ n * m := Nat.mul_le_mul_right _ (by omega)
    have h2 : (k + 1) * m = k * m + m := by ring
    have hlt : k * m + r < n * m := by omega
    have hdiv : (k * m + r) / m = k := by
      have e : k * m + r = m * k + r := by ring
      rw [e, Nat.mul_add_div hm0, Nat.div_eq_of_lt hr]
      omega
    rw [if_pos hlt, hdiv]
  · intro t ht
    rw [RandomSearch.out_eq n m hm sample d, if_neg (by omega)]

/-- Witness for `random_search_repeat_and_stop` at `n = 2`, `m = 2`, with
the identity sampling oracle. -/
theorem random_search_repeat_and_stop_witness :
    RandomSearch.out 2 2 (fun k => k) 0 0 = some 0 ∧
    RandomSearch.out 2 2 (fun k => k) 0 3 = some 1 ∧
    RandomSearch.out 2 2 (fun k => k) 0 4 = none := by
  have h := random_search_repeat_and_stop 2 2 (by norm_num) (fun k => k) 0
  refine ⟨?_, ?_, h.2 4 (by norm_num)⟩
  · have := h.1 0 0 (by norm_num) (by norm_num)
    simpa using this
  · have := h.1 1 1 (by norm_num) (by norm_num)
    simpa using this

theorem Iterate.cursor_mono {C : Type} (hp : List C) (t : ℕ) :
    Iterate.run hp t ≤ Iterate.run hp (t + 1) := by
  rw [Iterate.run, Iterate.get_suggestion]
  split <;> omega

theorem Iterate.exhausted_iff {C : Type} (hp : List C) (t : ℕ) :
    Iterate.out hp t = none ↔ hp.length ≤ Iterate.run hp t := by
  rw [Iterate.out, Iterate.get_suggestion]
  split <;> simp <;> omega

theorem Iterate.stop_final {C : Type} (hp : List C) (t t2 : ℕ)
    (h : Iterate.out hp t = none) (hle : t ≤ t2) : Iterate.out hp t2 = none := by
  rw [Iterate.exhausted_iff] at h ⊢
  induction t2, hle using Nat.le_induction with
  | base => exact h
  | succ k hk ih => exact le_trans ih (Iterate.cursor_mono hp k)

theorem Genetic.counter_mono {C : Type} (maxN : ℕ) (sugs : ℕ → C) (t : ℕ) :
    Genetic.run maxN sugs t ≤ Genetic.run maxN sugs (t + 1) := by
  rw [Genetic.run, Genetic.get_suggestion]
  split <;> omega

theorem Genetic.stop_iff {C : Type} (maxN : ℕ) (sugs : ℕ → C) (t : ℕ) :
    Genetic.out maxN sugs t = none ↔ maxN ≠ 0 ∧ maxN ≤ Genetic.run maxN sugs t := by
  rw [Genetic.out, Genetic.get_suggestion]
  split <;> simp_all

theorem Genetic.stop_lasting {C : Type} (maxN : ℕ) (sugs : ℕ → C) (t t2 : ℕ)
    (h : Genetic.out maxN sugs t = none) (hle : t ≤ t2) :
    Genetic.out maxN sugs t2 = none := by
  rw [Genetic.stop_iff] at h ⊢
  refine ⟨h.1, ?_⟩
  induction t2, hle using Nat.le_induction with
  | base => exact h.2
  | succ k hk ih => exact le_trans ih (Genetic.counter_mono maxN sugs k)

theorem RandomSearch.none_forever {C : Type} (n m : ℕ) (hm : 1 ≤ m)
    (sample : ℕ → C) (d : C) (t t2 : ℕ)
    (h : RandomSearch.out n m sample d t = none) (hle : t ≤ t2) :
    RandomSearch.out n m sample d t2 = none := by
  rw [RandomSearch.out_eq n m hm sample d] at h ⊢
  by_cases hlt : t < n * m
  · rw [if_pos hlt] at h
    exact absurd h (by simp)
  · rw [if_neg (by omega)]

theorem GridSearch.step_stop {C : Type} (build : List C) (m : ℕ) (hm : 1 ≤ m)
    (d : C) (s : GridSearchState C) (h : GridSearch.stopState build s) :
    GridSearch.get_suggestion build m d s = (s, none) := by
  obtain ⟨hi, hj, hg⟩ := h
  have hm1 : ¬ ((0:ℕ) = m) := by omega
  cases s with
  | mk i j grid theta =>
    simp only at hi hj hg
    subst hi hj hg
    rw [GridSearch.get_suggestion]
    by_cases h0 : build.length = 0
    · simp [h0, hm1]
    · simp [h0, hm1]

theorem GridSearch.step_inv {C : Type} (build : List C) (m : ℕ) (hm : 1 ≤ m)
    (d : C) (s : GridSearchState C) (h : GridSearch.inv build m s) :
    GridSearch.inv build m (GridSearch.get_suggestion build m d s).1 ∧
      ((GridSearch.get_suggestion build m d s).2 = none →
        GridSearch.stopState build (GridSearch.get_suggestion build m d s).1) := by
  have hm1 : ¬ ((0:ℕ) = m) := by omega
  rcases h with ⟨hi, hj, hg⟩ | hstop | ⟨hg, hj1, hjm, hilt⟩
  · -- fresh state
    cases s with
    | mk i j grid theta =>
      simp only at hi hj hg
      subst hi hj
      rw [GridSearch.get_suggestion]
      by_cases h0 : build.length = 0
      · simp [h0, hm1, GridSearch.inv, GridSearch.stopState]
      · have h0s : ¬ ((0:ℕ) = build.length) := by omega
        simp [h0s, hm1, GridSearch.inv, GridSearch.stopState]
        all_goals omega
  · -- stop state: unchanged
    rw [GridSearch.step_stop build m hm d s hstop]
    exact ⟨Or.inr (Or.inl hstop), fun _ => hstop⟩
  · -- mid-traversal state
    cases s with
    | mk i j grid theta =>
      simp only at hg hj1 hjm hilt
      subst hg
      rw [GridSearch.get_suggestion]
      by_cases hjm2 : j = m
      · by_cases hend : i + 1 = build.length
        · simp [hjm2, hend, hm1, GridSearch.inv, GridSearch.stopState,
            show ¬(i = 0 ∧ m = 0) from by omega]
          all_goals omega
        · simp [hjm2, hend, hm1, GridSearch.inv, GridSearch.stopState,
            show ¬(i = 0 ∧ m = 0) from by omega]
          all_goals omega
      · have hne : ¬(i = build.length) := by omega
        have hj0 : ¬(j = 0) := by omega
        simp [hjm2, hne, hj0, GridSearch.inv, GridSearch.stopState,
          show ¬(i = 0 ∧ j = 0) from by omega]
        all_goals omega

theorem GridSearch.run_inv {C : Type} (build : List C) (m : ℕ) (hm : 1 ≤ m)
    (d : C) (t : ℕ) : GridSearch.inv build m (GridSearch.run build m d t) := by
  induction t with
  | zero => exact Or.inl ⟨rfl, rfl, Or.inl rfl⟩
  | succ t ih =>
    rw [GridSearch.run]
    exact (GridSearch.step_inv build m hm d _ ih).1

theorem GridSearch.stop_persists {C : Type} (build : List C) (m : ℕ) (hm : 1 ≤ m)
    (d : C) (t t2 : ℕ) (h : GridSearch.out build m d t = none) (hle : t ≤ t2) :
    GridSearch.out build m d t2 = none := by
  have hstop : GridSearch.stopState build (GridSearch.run build m d (t + 1)) := by
    rw [GridSearch.run]
    exact (GridSearch.step_inv build m hm d _ (GridSearch.run_inv build m hm d t)).2 h
  rcases Nat.eq_or_lt_of_le hle with rfl | hlt
  · exact h
  · have hfix : ∀ u, t + 1 ≤ u →
        GridSearch.run build m d u = GridSearch.run build m d (t + 1) := by
      intro u hu
      induction u, hu using Nat.le_induction with
      | base => rfl
      | succ k hk ih =>
        rw [GridSearch.run, ih,
          GridSearch.step_stop build m hm d _ hstop]
    rw [GridSearch.out]
    rw [hfix t2 (by omega)]
    rw [GridSearch.step_stop build m hm d _ hstop]

/-- C2 (counterexample): for `LocalSearch`, Stop is not absorbing.  In the
embedded run, calls return `[1]`, `[3]`, `[2]`, then Stop (all perturbations
of the seed `[1]` submitted); on the next call the results table has best
completed row `[2]`, the algorithm re-seeds from it, and returns the fresh
configuration `[6]` after having returned Stop. -/
theorem local_search_resumes_after_stop :
    LocalSearch.out lsCexParams (2, 3) [1] lsCexOracle 3 = none ∧
    LocalSearch.out lsCexParams (2, 3) [1] lsCexOracle 4 = some [6] := by
  have h0 : LocalSearch.run lsCexParams (2, 3) [1] lsCexOracle 0 = ⟨0, [], [1]⟩ := rfl
  have h1 : LocalSearch.run lsCexParams (2, 3) [1] lsCexOracle 1 = ⟨1, [[1]], [1]⟩ := by
    rw [LocalSearch.run, h0]
    norm_num [LocalSearch.step]
  have h2 : LocalSearch.run lsCexParams (2, 3) [1] lsCexOracle 2
      = ⟨2, [[1], [3]], [1]⟩ := by
    rw [LocalSearch.run, h1]
    norm_num [LocalSearch.step, LocalSearch.candidates, LocalSearch.perturb,
      lsCexParams, lsCexOracle, npClip, listMin, listMax, List.find?, List.flatMap,
      inf_eq_min, sup_eq_max, min_def, max_def,
      show ParamKind.continuous ≠ ParamKind.discrete from by decide]
  have h3 : LocalSearch.run lsCexParams (2, 3) [1] lsCexOracle 3
      = ⟨3, [[1], [3], [2]], [1]⟩ := by
    rw [LocalSearch.run, h2]
    norm_num [LocalSearch.step, LocalSearch.candidates, LocalSearch.perturb,
      lsCexParams, lsCexOracle, npClip, listMin, listMax, List.find?, List.flatMap,
      inf_eq_min, sup_eq_max, min_def, max_def,
      show ParamKind.continuous ≠ ParamKind.discrete from by decide]
  constructor
  · rw [LocalSearch.out, h3]
    norm_num [LocalSearch.step, LocalSearch.candidates, LocalSearch.perturb,
      lsCexParams, lsCexOracle, npClip, listMin, listMax, List.find?, List.flatMap,
      inf_eq_min, sup_eq_max, min_def, max_def,
      show ParamKind.continuous ≠ ParamKind.discrete from by decide]
  · have h4 : LocalSearch.run lsCexParams (2, 3) [1] lsCexOracle 4
        = ⟨4, [[1], [3], [2]], [1]⟩ := by
      rw [LocalSearch.run, h3]
      norm_num [LocalSearch.step, LocalSearch.candidates, LocalSearch.perturb,
        lsCexParams, lsCexOracle, npClip, listMin, listMax, List.find?, List.flatMap,
        inf_eq_min, sup_eq_max, min_def, max_def,
        show ParamKind.continuous ≠ ParamKind.discrete from by decide]
    rw [LocalSearch.out, h4]
    norm_num [LocalSearch.step, LocalSearch.candidates, LocalSearch.perturb,
      lsCexParams, lsCexOracle, npClip, listMin, listMax, List.find?, List.flatMap,
      inf_eq_min, sup_eq_max, min_def, max_def,
      show ParamKind.continuous ≠ ParamKind.discrete from by decide]

theorem Iterate.cursor_after_calls {C : Type} (hp : List C) :
    ∀ n, n ≤ hp.length → Iterate.run hp n = n := by
  intro n hn
  induction n with
  | zero => rfl
  | succ k ih =>
    rw [Iterate.run, ih (by omega), Iterate.get_suggestion, dif_pos (by omega)]

/-- C2 (amended): for `RandomSearch`, `GridSearch`, `Iterate` and `Genetic`
with a trial cap, once `get_suggestion` returns the Stop sentinel, every
later call returns Stop as well, for every sampling/suggestion oracle and
every growth of the results table.  (`LocalSearch`, also named by the claim,
violates this: see `local_search_resumes_after_stop`.) -/
theorem stop_sentinel_absorbing {C : Type} (n m maxN : ℕ) (hm : 1 ≤ m)
    (sample : ℕ → C) (build : List C) (d : C) (hp : List C) (sugs : ℕ → C)
    (t t2 : ℕ) (hle : t ≤ t2) :
    (RandomSearch.out n m sample d t = none →
      RandomSearch.out n m sample d t2 = none) ∧
    (GridSearch.out build m d t = none → GridSearch.out build m d t2 = none) ∧
    (Iterate.out hp t = none → Iterate.out hp t2 = none) ∧
    (Genetic.out maxN sugs t = none → Genetic.out maxN sugs t2 = none) :=
  ⟨fun h => RandomSearch.none_forever n m hm sample d t t2 h hle,
   fun h => GridSearch.stop_persists build m hm d t t2 h hle,
   fun h => Iterate.stop_final hp t t2 h hle,
   fun h => Genetic.stop_lasting maxN sugs t t2 h hle⟩

/-- Witness for `stop_sentinel_absorbing` at concrete instances. -/
theorem stop_sentinel_absorbing_witness :
    (RandomSearch.out 1 1 (fun k => k) 0 5 = none →
      RandomSearch.out 1 1 (fun k => k) 0 7 = none) ∧
    (GridSearch.out [0] 1 0 5 = none → GridSearch.out [0] 1 0 7 = none) ∧
    (Iterate.out [0] 5 = none → Iterate.out [0] 7 = none) ∧
    (Genetic.out 1 (fun k => k) 5 = none → Genetic.out 1 (fun k => k) 7 = none) :=
  stop_sentinel_absorbing 1 1 1 (by decide) (fun k => k) [0] 0 [0] (fun k => k)
    5 7 (by decide)

/-- C3 (amended): `load` is idempotent (both the `Iterate` override and the
inherited no-op), and for `Iterate` — the only algorithm that overrides it —
`load(n)` on a fresh instance produces exactly the state reached by `n`
prior successful `get_suggestion` calls.  For the algorithms that keep the
inherited no-op `load`, the equivalence fails: see
`gridsearch_load_not_equivalent`. -/
theorem load_restores_position_iterate {C : Type} (hp : List C) (n : ℕ)
    (s : ℕ) {σ : Type} (x : σ) (hn : n ≤ hp.length) :
    Iterate.load n (Iterate.load n s) = Iterate.load n s ∧
    Algorithm.load n (Algorithm.load n x) = Algorithm.load n x ∧
    Iterate.run hp n = Iterate.load n s :=
  ⟨rfl, rfl, by rw [Iterate.cursor_after_calls hp n hn]; rfl⟩

/-- Witness for `load_restores_position_iterate` on a two-element list. -/
theorem load_restores_position_iterate_witness :
    Iterate.load 2 (Iterate.load 2 7) = Iterate.load 2 7 ∧
    Algorithm.load 2 (Algorithm.load 2 (3 : ℕ)) = Algorithm.load 2 (3 : ℕ) ∧
    Iterate.run [10, 20] 2 = Iterate.load 2 7 :=
  load_restores_position_iterate [10, 20] 2 7 (3 : ℕ) (by decide)

/-- C3 (counterexample): `GridSearch` inherits the no-op `load`, so a fresh
instance after `load(1)` returns grid point `0` where an instance that
actually made one successful call returns grid point `1`. -/
theorem gridsearch_load_not_equivalent :
    GridSearch.out [0, 1] 1 0 1 = some 1 ∧
    (GridSearch.get_suggestion [0, 1] 1 0 (Algorithm.load 1 (GridSearch.init 0))).2
      = some 0 ∧
    ((some 1 : Option ℕ) ≠ some 0) := by
  refine ⟨?_, ?_, by decide⟩ <;> decide

theorem sum_map_constant {α : Type} (c : ℕ) : ∀ l : List α,
    (l.map (fun _ => c)).sum = l.length * c := by
  intro l
  induction l with
  | nil => simp
  | cons x xs ih => simp [ih]; ring

theorem parameterGrid_length {α : Type} : ∀ ls : List (List α),
    (parameterGrid ls).length = (ls.map List.length).prod := by
  intro ls
  induction ls with
  | nil => rfl
  | cons vs rest ih =>
    rw [parameterGrid, List.length_flatMap]
    have h : (List.length ∘ fun v : α => List.map (fun g => v :: g) (parameterGrid rest))
        = fun _ => (parameterGrid rest).length := by
      funext v
      simp
    rw [h, sum_map_constant, ih]
    simp [Nat.mul_comm]

/-- C7: `GridSearch` candidate values.  For a continuous parameter on linear
scale the `j+1`-st of `k` candidates (1-indexed `i = j+1`) sits at
`lo + (hi-lo)*i/(k+1)`; on log scale the candidate is
`10^(log10(lo) + (log10(hi)-log10(lo))*i/(k+1))`; a discrete parameter
additionally truncates the candidate to integer on either scale.  For the
concrete range `[1,2]` with `k = 2` the candidates are `4/3` and `5/3`,
each candidate list has length `k`, and the cartesian-product grid has
exactly the product of the per-parameter candidate counts as its size. -/
theorem grid_search_candidate_positions (lo hi : ℚ) (rlo rhi : ℝ) (k j : ℕ)
    (hj : j < k) :
    (GridSearch.linearValues lo hi k).get? j
      = some (lo + (hi - lo) * ((j : ℚ) + 1) / ((k : ℚ) + 1)) ∧
    (GridSearch.linearDiscreteValues lo hi k).get? j
      = some ((pyInt (lo + (hi - lo) * ((j : ℚ) + 1) / ((k : ℚ) + 1)) : ℤ) : ℚ) ∧
    (GridSearch.logValues rlo rhi k).get? j
      = some ((10 : ℝ) ^ (Real.logb 10 rlo
          + (Real.logb 10 rhi - Real.logb 10 rlo) * ((j : ℝ) + 1) / ((k : ℝ) + 1))) ∧
    (GridSearch.logDiscreteValues rlo rhi k).get? j
      = some ((pyIntR ((10 : ℝ) ^ (Real.logb 10 rlo
          + (Real.logb 10 rhi - Real.logb 10 rlo) * ((j : ℝ) + 1) / ((k : ℝ) + 1)))
          : ℤ) : ℝ) ∧
    GridSearch.linearValues 1 2 2 = [4/3, 5/3] ∧
    (GridSearch.linearValues lo hi k).length = k ∧
    (∀ ls : List (List ℚ), (parameterGrid ls).length = (ls.map List.length).prod) := by
  refine ⟨?_, ?_, ?_, ?_, ?_, ?_, fun ls => parameterGrid_length ls⟩
  · rw [GridSearch.linearValues, List.get?_map, List.get?_range hj]
    simp only [Option.map_some']
    congr 1
    ring
  · rw [GridSearch.linearDiscreteValues, List.get?_map, List.get?_range hj]
    simp only [Option.map_some']
    congr 3
    ring
  · rw [GridSearch.logValues, List.get?_map, List.get?_range hj]
    simp only [Option.map_some']
    congr 2
    ring
  · rw [GridSearch.logDiscreteValues, List.get?_map, List.get?_range hj]
    simp only [Option.map_some']
    have he : (Real.logb 10 rhi - Real.logb 10 rlo) * (((j : ℝ) + 1) / ((k : ℝ) + 1))
        + Real.logb 10 rlo
        = Real.logb 10 rlo
          + (Real.logb 10 rhi - Real.logb 10 rlo) * ((j : ℝ) + 1) / ((k : ℝ) + 1) := by
      ring
    rw [he]
  · norm_num [GridSearch.linearValues, List.range_succ]
  · simp [GridSearch.linearValues]

/-- Witness for `grid_search_candidate_positions` at `k = 2`, `j = 0`,
range `[1, 2]` on both scales. -/
theorem grid_search_candidate_positions_witness :
    (GridSearch.linearValues 1 2 2).get? 0
      = some (1 + (2 - 1) * ((0 : ℚ) + 1) / ((2 : ℚ) + 1)) ∧
    (GridSearch.linearDiscreteValues 1 2 2).get? 0
      = some ((pyInt (1 + (2 - 1) * ((0 : ℚ) + 1) / ((2 : ℚ) + 1)) : ℤ) : ℚ) ∧
    (GridSearch.logValues 1 2 2).get? 0
      = some ((10 : ℝ) ^ (Real.logb 10 1
          + (Real.logb 10 2 - Real.logb 10 1) * ((0 : ℝ) + 1) / ((2 : ℝ) + 1))) ∧
    (GridSearch.logDiscreteValues 1 2 2).get? 0
      = some ((pyIntR ((10 : ℝ) ^ (Real.logb 10 1
          + (Real.logb 10 2 - Real.logb 10 1) * ((0 : ℝ) + 1) / ((2 : ℝ) + 1)))
          : ℤ) : ℝ) ∧
    GridSearch.linearValues 1 2 2 = [4/3, 5/3] ∧
    (GridSearch.linearValues 1 2 2).length = 2 ∧
    (∀ ls : List (List ℚ), (parameterGrid ls).length = (ls.map List.length).prod) := by
  have h := grid_search_candidate_positions 1 2 1 2 2 0 (by norm_num)
  simpa using h

theorem LocalSearch.count_after_calls (params : List LSParam) (factors : ℚ × ℚ)
    (seed0 : List ℚ) (os : ℕ → LSOracle) :
    ∀ t, (LocalSearch.run params factors seed0 os t).count = t := by
  intro t
  induction t with
  | zero => rfl
  | succ t ih =>
    rw [LocalSearch.run, LocalSearch.step]
    dsimp only
    split
    next hc => simp only at hc ⊢; omega
    next hc => split <;> simp [ih]

theorem LocalSearch.step_submitted_mono (params : List LSParam) (factors : ℚ × ℚ)
    (st : LocalSearchState) (o : LSOracle) (x : List ℚ) (hx : x ∈ st.submitted) :
    x ∈ (LocalSearch.step params factors st o).1.submitted := by
  rw [LocalSearch.step]
  dsimp only
  split
  · simp [hx]
  · split <;> simp [hx]

theorem LocalSearch.submitted_mono (params : List LSParam) (factors : ℚ × ℚ)
    (seed0 : List ℚ) (os : ℕ → LSOracle) (t t2 : ℕ) (hle : t ≤ t2) (x : List ℚ)
    (hx : x ∈ (LocalSearch.run params factors seed0 os t).submitted) :
    x ∈ (LocalSearch.run params factors seed0 os t2).submitted := by
  induction t2, hle using Nat.le_induction with
  | base => exact hx
  | succ k hk ih =>
    rw [LocalSearch.run]
    exact LocalSearch.step_submitted_mono params factors _ _ x ih

theorem LocalSearch.step_cases (params : List LSParam) (factors : ℚ × ℚ)
    (st : LocalSearchState) (o : LSOracle) :
    (st.count = 0 ∧ LocalSearch.step params factors st o
        = (⟨1, st.submitted ++ [st.seed], st.seed⟩, some st.seed)) ∨
    (st.count ≠ 0 ∧
      ((∃ c, List.find? (fun c => decide (c ∉ st.submitted))
          (LocalSearch.candidates params factors o.pord o.vord o.dord
            (o.reseed.getD st.seed)) = some c ∧
        LocalSearch.step params factors st o
          = (⟨st.count + 1, st.submitted ++ [c], o.reseed.getD st.seed⟩, some c)) ∨
       (List.find? (fun c => decide (c ∉ st.submitted))
          (LocalSearch.candidates params factors o.pord o.vord o.dord
            (o.reseed.getD st.seed)) = none ∧
        LocalSearch.step params factors st o
          = (⟨st.count + 1, st.submitted, o.reseed.getD st.seed⟩, none)))) := by
  by_cases hc : st.count + 1 = 1
  · left
    refine ⟨by omega, ?_⟩
    rw [LocalSearch.step, if_pos hc]
  · right
    refine ⟨by omega, ?_⟩
    cases hfind : List.find? (fun c => decide (c ∉ st.submitted))
        (LocalSearch.candidates params factors o.pord o.vord o.dord
          (o.reseed.getD st.seed)) with
    | some c =>
      left
      exact ⟨c, rfl, by rw [LocalSearch.step, if_neg hc]; dsimp only; rw [hfind]⟩
    | none =>
      right
      exact ⟨rfl, by rw [LocalSearch.step, if_neg hc]; dsimp only; rw [hfind]⟩

theorem LocalSearch.out_mem (params : List LSParam) (factors : ℚ × ℚ)
    (seed0 : List ℚ) (os : ℕ → LSOracle) (t : ℕ) (c : List ℚ)
    (h : LocalSearch.out params factors seed0 os t = some c) :
    c ∈ (LocalSearch.run params factors seed0 os (t + 1)).submitted := by
  have hrun : LocalSearch.run params factors seed0 os (t + 1)
      = (LocalSearch.step params factors (LocalSearch.run params factors seed0 os t)
          (os t)).1 := rfl
  rw [LocalSearch.out] at h
  rw [hrun]
  rcases LocalSearch.step_cases params factors
      (LocalSearch.run params factors seed0 os t) (os t) with
    ⟨_, heq⟩ | ⟨_, ⟨c2, _, heq⟩ | ⟨_, heq⟩⟩ <;> rw [heq] at h ⊢ <;> simp_all

theorem LocalSearch.out_fresh (params : List LSParam) (factors : ℚ × ℚ)
    (seed0 : List ℚ) (os : ℕ → LSOracle) (t : ℕ) (c : List ℚ)
    (h : LocalSearch.out params factors seed0 os t = some c) :
    c ∉ (LocalSearch.run params factors seed0 os t).submitted := by
  rw [LocalSearch.out] at h
  rcases LocalSearch.step_cases params factors
      (LocalSearch.run params factors seed0 os t) (os t) with
    ⟨hc0, heq⟩ | ⟨_, ⟨c2, hfind, heq⟩ | ⟨_, heq⟩⟩
  · -- first call: t = 0 and the submitted list is empty
    have hcount := LocalSearch.count_after_calls params factors seed0 os t
    have ht : t = 0 := by omega
    subst ht
    simp [LocalSearch.run]
  · rw [heq] at h
    simp only [Option.some.injEq] at h
    subst h
    have hp := List.find?_some hfind
    simpa using hp
  · rw [heq] at h
    simp at h

theorem LocalSearch.candidates_subset (params : List LSParam) (factors : ℚ × ℚ)
    (pord : List ℕ) (vord : ℕ → List ℚ) (dord : ℕ → List Bool) (seed : List ℚ)
    (hpord : ∀ pi ∈ pord, pi < params.length)
    (hvord : ∀ pi p, params.get? pi = some p → ∀ v ∈ vord pi, v ∈ p.range) :
    ∀ c ∈ LocalSearch.candidates params factors pord vord dord seed,
      c ∈ LocalSearch.allPerturbations params factors seed := by
  intro c hc
  rw [LocalSearch.candidates, List.mem_flatMap] at hc
  obtain ⟨pi, hpi, hc⟩ := hc
  rw [LocalSearch.allPerturbations, LocalSearch.candidates, List.mem_flatMap]
  refine ⟨pi, List.mem_range.mpr (hpord pi hpi), ?_⟩
  cases hget : params.get? pi with
  | none =>
    rw [List.get?_eq_none] at hget
    have := hpord pi hpi
    omega
  | some p =>
    rw [hget] at hc
    dsimp only at hc
    dsimp only [Option.elim]
    by_cases hk : p.kind = ParamKind.choice
    · rw [if_pos hk] at hc ⊢
      rw [List.mem_map] at hc
      obtain ⟨v, hv, rfl⟩ := hc
      rw [List.mem_map]
      exact ⟨v, by simpa using hvord pi p hget v hv, rfl⟩
    · rw [if_neg hk] at hc ⊢
      rw [List.mem_map] at hc
      obtain ⟨incr, _, rfl⟩ := hc
      rw [List.mem_map]
      refine ⟨incr, ?_, rfl⟩
      cases incr <;> simp

/-- C9: For `LocalSearch` with `repeat_trials = 1`: (first conjunct) two
distinct calls never return equal non-Stop configurations — every returned
configuration is recorded in `submitted` at return time and later calls only
return configurations absent from that list; (second conjunct) whenever
every parameter/direction perturbation of the current seed (after
re-seeding from the results) has already been submitted, the call returns
the Stop sentinel, for any randomized parameter order drawn from the
parameter list and any randomized value orders drawn from the ranges. -/
theorem local_search_dedup_and_exhaustion (params : List LSParam)
    (factors : ℚ × ℚ) (seed0 : List ℚ) (os : ℕ → LSOracle) :
    (∀ t t2 c c2, t < t2 → LocalSearch.out params factors seed0 os t = some c →
      LocalSearch.out params factors seed0 os t2 = some c2 → c ≠ c2) ∧
    (∀ t, 1 ≤ t →
      (∀ pi ∈ (os t).pord, pi < params.length) →
      (∀ pi p, params.get? pi = some p → ∀ v ∈ (os t).vord pi, v ∈ p.range) →
      (∀ c ∈ LocalSearch.allPerturbations params factors
          ((os t).reseed.getD (LocalSearch.run params factors seed0 os t).seed),
        c ∈ (LocalSearch.run params factors seed0 os t).submitted) →
      LocalSearch.out params factors seed0 os t = none) := by
  constructor
  · intro t t2 c c2 hlt h1 h2
    intro heq
    subst heq
    have hmem := LocalSearch.out_mem params factors seed0 os t c h1
    have hmem2 := LocalSearch.submitted_mono params factors seed0 os (t + 1) t2
      (by omega) c hmem
    exact LocalSearch.out_fresh params factors seed0 os t2 c h2 hmem2
  · intro t ht hpord hvord hsub
    rw [LocalSearch.out]
    rcases LocalSearch.step_cases params factors
        (LocalSearch.run params factors seed0 os t) (os t) with
      ⟨hc0, _⟩ | ⟨_, ⟨c2, hfind, heq⟩ | ⟨_, heq⟩⟩
    · have hcount := LocalSearch.count_after_calls params factors seed0 os t
      omega
    · exfalso
      have hmem := List.mem_of_find?_eq_some hfind
      have hp := List.find?_some hfind
      have hin := LocalSearch.candidates_subset params factors (os t).pord
        (os t).vord (os t).dord _ hpord hvord c2 hmem
      have := hsub c2 hin
      simp at hp
      exact hp this
    · rw [heq]

theorem local_search_dedup_and_exhaustion_witness :
    (([5] : List ℚ) ≠ [7]) ∧
    LocalSearch.out lsWitParams (2, 3) [5] lsWitOracle 2 = none := by
  have h := local_search_dedup_and_exhaustion lsWitParams (2, 3) [5] lsWitOracle
  constructor
  · exact h.1 0 1 [5] [7] (by omega) (by decide) (by decide)
  · refine h.2 2 (by omega) (by decide) ?_ ?_
    · intro pi p hp v hv
      match pi, hp with
      | 0, hp =>
        have hp2 : p = ⟨.choice, [5, 7]⟩ := by
          simpa [lsWitParams] using hp.symm
        subst hp2
        simpa [lsWitParams, lsWitOracle] using hv
    · decide

/-- C4 (counterexample): with `num_times = 2` and a group of two COMPLETED
rows whose objectives are `1` and NaN, the claim's aggregation (plain row
count `2 ≥ 2`) passes the group to the inner algorithm, but the code's
pandas `count` aggregation counts only non-NaN objectives (`1 < 2`) and the
inner algorithm (here the identity, so its input is observable) receives an
empty table instead. -/
theorem repeat_nan_group_dropped :
    Repeat.get_suggestion 2 false (fun r => r) ⟨[], 0⟩ (some repeatCexTable)
      = (⟨[some []], 2⟩, RepeatOut.sug (some [])) ∧
    Repeat.claimGroups 2 repeatCexTable = [⟨[1], "COMPLETED", none, 2, none⟩] := by
  constructor
  · decide
  · decide

/-- The `count` column of an aggregation row is the number of non-NaN
objectives of its group. -/
theorem Repeat.aggRowOf_count (completed : List RepeatRow) (k : List ℚ) :
    (Repeat.aggRowOf completed k).count
      = ((completed.filter (fun r => r.params = k)).filterMap (·.objective)).length := rfl

/-- C4 (amended): when the queue is empty and the results table is nonempty,
`Repeat.get_suggestion` returns Wait iff `wait_for_completion` is set and
fewer than `prev_completed + num_times` COMPLETED rows exist (leaving the
state untouched and never calling the inner algorithm); otherwise it calls
the inner algorithm exactly on the aggregated table and returns its
suggestion, queuing `num_times - 1` further copies; and the aggregated
table contains exactly the COMPLETED groups (grouped by parameter tuple)
whose count of non-NaN objectives is at least `num_times`, each row being
the group's mean/variance-of-the-mean aggregate over its non-NaN
objectives. -/
theorem repeat_wait_and_aggregation {Sug : Type} (num_times : ℕ)
    (hn : 1 ≤ num_times) (wait_for_completion : Bool)
    (inner : Option (List AggRow) → Sug) (st : RepeatState Sug)
    (res : List RepeatRow) (hq : st.queue = []) (hres : res ≠ []) :
    ((wait_for_completion = true ∧
        (res.filter (fun r => r.status = "COMPLETED")).length
          < st.prev_completed + num_times) →
      Repeat.get_suggestion num_times wait_for_completion inner st (some res)
        = (st, .wait)) ∧
    (¬(wait_for_completion = true ∧
        (res.filter (fun r => r.status = "COMPLETED")).length
          < st.prev_completed + num_times) →
      Repeat.get_suggestion num_times wait_for_completion inner st (some res)
        = (⟨List.replicate (num_times - 1)
              (inner (some (Repeat.aggregate num_times res))),
            st.prev_completed + num_times⟩,
           .sug (inner (some (Repeat.aggregate num_times res))))) ∧
    (∀ r, r ∈ Repeat.aggregate num_times res ↔
      ∃ k, k ∈ collectDistinct
          ((res.filter (fun rr => rr.status = "COMPLETED")).map (·.params)) ∧
        r = Repeat.aggRowOf (res.filter (fun rr => rr.status = "COMPLETED")) k ∧
        num_times ≤ (((res.filter (fun rr => rr.status = "COMPLETED")).filter
            (fun rr => rr.params = k)).filterMap (·.objective)).length) := by
  obtain ⟨queue0, prev⟩ := st
  simp only at hq
  subst hq
  have hlen : ¬ (res.length = 0) := by
    intro h
    exact hres (List.length_eq_zero.mp h)
  refine ⟨?_, ?_, ?_⟩
  · intro hw
    rw [Repeat.get_suggestion]
    dsimp only
    rw [if_pos (show ([] : List Sug).length = 0 from rfl), if_pos hlen, if_pos hw]
  · intro hw
    obtain ⟨n2, rfl⟩ : ∃ n2, num_times = n2 + 1 := ⟨num_times - 1, by omega⟩
    rw [Repeat.get_suggestion]
    dsimp only
    rw [if_pos (show ([] : List Sug).length = 0 from rfl), if_pos hlen, if_neg hw]
    rw [List.nil_append, List.replicate_succ']
    rw [List.getLast?_concat]
    dsimp only
    rw [List.dropLast_concat]
    simp
  · intro r
    rw [Repeat.aggregate]
    rw [List.mem_filter, List.mem_map]
    constructor
    · rintro ⟨⟨k, hk, rfl⟩, hcnt⟩
      refine ⟨k, hk, rfl, ?_⟩
      simpa [Repeat.aggRowOf_count] using hcnt
    · rintro ⟨k, hk, rfl, hcnt⟩
      exact ⟨⟨k, hk, rfl⟩, by simpa [Repeat.aggRowOf_count] using hcnt⟩

/-- Witness for `repeat_wait_and_aggregation`: the Wait branch at
`num_times = 1` with no COMPLETED rows. -/
theorem repeat_wait_and_aggregation_witness :
    Repeat.get_suggestion 1 true (fun r => r) ⟨[], 0⟩
      (some [⟨[1], "INTERMEDIATE", some 2⟩]) = (⟨[], 0⟩, RepeatOut.wait) := by
  have h := repeat_wait_and_aggregation 1 (by omega) true (fun r => r) ⟨[], 0⟩
      [⟨[1], "INTERMEDIATE", some 2⟩] rfl (by simp)
  exact h.1 ⟨rfl, by decide⟩

theorem firstSeenDistinct_filter {V : Type} [DecidableEq V] :
    ∀ (l : List V) (q : V → Bool),
      firstSeenDistinct (l.filter q) = (firstSeenDistinct l).filter q := by
  intro l
  induction l with
  | nil => intro q; rfl
  | cons v vs ih =>
    intro q
    by_cases hq : q v
    · rw [firstSeenDistinct, List.filter_cons, if_pos hq, firstSeenDistinct, ih]
      rw [List.filter_cons, if_pos hq]
      rw [List.filter_filter, List.filter_filter]
      refine congrArg (fun l => v :: l) (List.filter_congr ?_)
      intro x hx
      exact Bool.and_comm _ _
    · rw [firstSeenDistinct, List.filter_cons, if_neg hq, ih]
      rw [List.filter_cons, if_neg hq, List.filter_filter]
      refine (List.filter_congr ?_).symm
      intro x hx
      by_cases hxv : x = v
      · subst hxv
        simp [hq]
      · simp [hxv]

theorem firstSeenDistinct_mem {V : Type} [DecidableEq V] :
    ∀ (l : List V) (x : V), x ∈ firstSeenDistinct l ↔ x ∈ l := by
  intro l
  induction l with
  | nil => intro x; rfl
  | cons v vs ih =>
    intro x
    rw [firstSeenDistinct]
    by_cases hx : x = v
    · subst hx
      simp
    · simp [hx, List.mem_filter, ih x]

theorem firstSeenDistinct_nodup {V : Type} [DecidableEq V] :
    ∀ l : List V, (firstSeenDistinct l).Nodup := by
  intro l
  induction l with
  | nil => exact List.nodup_nil
  | cons v vs ih =>
    rw [firstSeenDistinct]
    refine List.Nodup.cons ?_ (List.Nodup.filter _ ih)
    intro hmem
    have := (List.mem_filter.mp hmem).2
    simp at this

theorem Iterate.rangeLoop_ok {V : Type} [DecidableEq V] (pname : String) :
    ∀ (hps : List (List (String × V))) (i : ℕ) (acc : List V),
      (∀ hp ∈ hps, (dictGet hp pname).isSome) →
      Iterate.rangeLoop pname hps i acc
        = .ok (acc ++ firstSeenDistinct
            ((hps.filterMap (fun hp => dictGet hp pname)).filter (fun v => v ∉ acc))) := by
  intro hps
  induction hps with
  | nil => intro i acc _; simp [Iterate.rangeLoop, firstSeenDistinct]
  | cons hp rest ih =>
    intro i acc hall
    obtain ⟨v, hv⟩ := Option.isSome_iff_exists.mp (hall hp (by simp))
    rw [Iterate.rangeLoop, hv]
    rw [List.filterMap_cons]
    rw [hv]
    dsimp only
    by_cases hmem : v ∈ acc
    · rw [if_pos hmem, ih (i + 1) acc (fun x hx => hall x (by simp [hx]))]
      rw [List.filter_cons, if_neg (by simpa using hmem)]
    · rw [if_neg hmem, ih (i + 1) (acc ++ [v]) (fun x hx => hall x (by simp [hx]))]
      rw [List.filter_cons, if_pos (by simpa using hmem)]
      rw [firstSeenDistinct]
      have hfilters : (rest.filterMap (fun hp => dictGet hp pname)).filter
            (fun w => w ∉ acc ++ [v])
          = ((rest.filterMap (fun hp => dictGet hp pname)).filter
              (fun w => w ∉ acc)).filter (fun w => w ≠ v) := by
        rw [List.filter_filter]
        congr 1
        funext x
        by_cases hx : x = v <;> by_cases hxa : x ∈ acc <;> simp [hx, hxa]
      rw [hfilters, firstSeenDistinct_filter]
      simp

theorem Iterate.rangeLoop_error {V : Type} [DecidableEq V] (pname : String) :
    ∀ (hps : List (List (String × V))) (i : ℕ) (acc : List V) (j : ℕ)
      (hj : j < hps.length)
      (hmiss : dictGet (hps.get ⟨j, hj⟩) pname = none)
      (hbefore : ∀ j2 (hj2 : j2 < j),
        (dictGet (hps.get ⟨j2, by omega⟩) pname).isSome),
      Iterate.rangeLoop pname hps i acc
        = .error ("Parameter " ++ pname ++ " not found in list item "
            ++ toString (i + j) ++ ".") := by
  intro hps
  induction hps with
  | nil => intro i acc j hj; simp at hj
  | cons hp rest ih =>
    intro i acc j hj hmiss hbefore
    cases j with
    | zero =>
      simp only [List.get] at hmiss
      rw [Iterate.rangeLoop, hmiss]
      simp
    | succ j2 =>
      have hhead : (dictGet hp pname).isSome := by
        have := hbefore 0 (by omega)
        simpa using this
      obtain ⟨v, hv⟩ := Option.isSome_iff_exists.mp hhead
      rw [Iterate.rangeLoop, hv]
      dsimp only
      have := ih (i + 1) (if v ∈ acc then acc else acc ++ [v]) j2
        (by simpa using Nat.lt_of_succ_lt_succ hj)
        (by simpa using hmiss)
        (fun j3 hj3 => by
          have := hbefore (j3 + 1) (by omega)
          simpa using this)
      rw [this]
      have : i + 1 + j2 = i + (j2 + 1) := by omega
      rw [this]

theorem exceptMapM_ok {V W E : Type} (g : V → Except E W) (h : V → W) :
    ∀ ks : List V, (∀ k ∈ ks, g k = .ok (h k)) →
      ks.mapM g = .ok (ks.map h) := by
  intro ks
  induction ks with
  | nil => intro _; rfl
  | cons k rest ih =>
    intro hall
    rw [List.mapM_cons, hall k (by simp), ih (fun x hx => hall x (by simp [hx]))]
    rfl

theorem exceptMapM_error {V W E : Type} (g : V → Except E W) (h : V → W) (e : E) :
    ∀ (ks1 : List V) (k : V) (ks2 : List V),
      (∀ k2 ∈ ks1, g k2 = .ok (h k2)) → g k = .error e →
      (ks1 ++ k :: ks2).mapM g = .error e := by
  intro ks1
  induction ks1 with
  | nil =>
    intro k ks2 _ hk
    rw [List.nil_append, List.mapM_cons, hk]
    rfl
  | cons k1 rest ih =>
    intro k ks2 hall hk
    rw [List.cons_append, List.mapM_cons, hall k1 (by simp),
      ih k ks2 (fun x hx => hall x (by simp [hx])) hk]
    rfl

/-- C10: `Iterate.get_parameters`.  First conjunct: when every configuration
has every key of the first configuration, the derived parameter list has one
categorical parameter per key, whose range is the distinct values of that
key in first-seen order (the accumulator loop refines the specification-side
`firstSeenDistinct`).  Second conjunct: such a range has no duplicates and
contains exactly the values occurring for that key (values are compared by
equality, i.e. a linear scan, so unhashable values are supported).  Third
conjunct: when the keys before `pname` are everywhere present and
configuration `j` is the first one missing `pname`, the call fails with the
error message naming `pname` and `j`. -/
theorem iterate_get_parameters_spec {V : Type} [DecidableEq V]
    (hp_iter : List (List (String × V))) :
    ((∀ pname ∈ (hp_iter.headD []).map (·.1), ∀ hp ∈ hp_iter,
        (dictGet hp pname).isSome) →
      Iterate.get_parameters hp_iter
        = .ok (((hp_iter.headD []).map (·.1)).map (fun pname =>
            ⟨pname, firstSeenDistinct
              (hp_iter.filterMap (fun hp => dictGet hp pname))⟩))) ∧
    (∀ pname : String,
      (firstSeenDistinct (hp_iter.filterMap (fun hp => dictGet hp pname))).Nodup ∧
      ∀ x, x ∈ firstSeenDistinct (hp_iter.filterMap (fun hp => dictGet hp pname))
        ↔ x ∈ hp_iter.filterMap (fun hp => dictGet hp pname)) ∧
    (∀ (ks1 : List String) (pname : String) (ks2 : List String) (j : ℕ)
      (hj : j < hp_iter.length),
      (hp_iter.headD []).map (·.1) = ks1 ++ pname :: ks2 →
      (∀ k2 ∈ ks1, ∀ hp ∈ hp_iter, (dictGet hp k2).isSome) →
      dictGet (hp_iter.get ⟨j, hj⟩) pname = none →
      (∀ j2 (hj2 : j2 < j), (dictGet (hp_iter.get ⟨j2, by omega⟩) pname).isSome) →
      Iterate.get_parameters hp_iter
        = .error ("Parameter " ++ pname ++ " not found in list item "
            ++ toString j ++ ".")) := by
  have hloop : ∀ pname : String, (∀ hp ∈ hp_iter, (dictGet hp pname).isSome) →
      Iterate.rangeLoop pname hp_iter 0 []
        = .ok (firstSeenDistinct (hp_iter.filterMap (fun hp => dictGet hp pname))) := by
    intro pname hall
    rw [Iterate.rangeLoop_ok pname hp_iter 0 [] hall]
    simp
  refine ⟨?_, ?_, ?_⟩
  · intro hall
    rw [Iterate.get_parameters]
    exact exceptMapM_ok _ _ _ (fun pname hmem => by
      rw [hloop pname (hall pname hmem)]
      rfl)
  · intro pname
    exact ⟨firstSeenDistinct_nodup _, fun x => firstSeenDistinct_mem _ x⟩
  · intro ks1 pname ks2 j hj hkeys hok hmiss hbefore
    rw [Iterate.get_parameters, hkeys]
    refine exceptMapM_error _
      (fun pname => ChoiceParam.mk pname
        (firstSeenDistinct (hp_iter.filterMap (fun hp => dictGet hp pname)))) _
      ks1 pname ks2
      (fun k2 hk2 => by rw [hloop k2 (hok k2 hk2)]; rfl) ?_
    rw [Iterate.rangeLoop_error pname hp_iter 0 [] j hj hmiss hbefore]
    simp [Except.map]

/-- Witness for `iterate_get_parameters_spec`: a two-configuration success
case preserving first-seen order, and a first failure at list item 1. -/
theorem iterate_get_parameters_spec_witness :
    Iterate.get_parameters [[("a", 1), ("b", 2)], [("b", 3), ("a", 1)]]
      = .ok [⟨"a", [1]⟩, ⟨"b", [2, 3]⟩] ∧
    Iterate.get_parameters [[("a", (1 : ℕ))], [("c", 2)]]
      = .error "Parameter a not found in list item 1." := by
  constructor
  · have h := (iterate_get_parameters_spec
      [[("a", (1 : ℕ)), ("b", 2)], [("b", 3), ("a", 1)]]).1 (by decide)
    rw [h]
    congr 1
  · have h := (iterate_get_parameters_spec [[("a", (1 : ℕ))], [("c", 2)]]).2.2
      [] "a" [] 1 (by decide) (by decide) (by decide) (by decide)
      (by
        intro j2 hj2
        interval_cases j2
        rfl)
    rw [h]
    congr 1

theorem mem_insertSorted {α : Type} (le : α → α → Bool) (a x : α) :
    ∀ l : List α, x ∈ insertSorted le a l ↔ x = a ∨ x ∈ l := by
  intro l
  induction l with
  | nil => simp [insertSorted]
  | cons y ys ih =>
    rw [insertSorted]
    by_cases hle : le a y
    · simp [hle]
    · simp [hle, ih]
      tauto

theorem mem_sortListBy {α : Type} (le : α → α → Bool) (x : α) :
    ∀ l : List α, x ∈ sortListBy le l ↔ x ∈ l := by
  intro l
  induction l with
  | nil => simp [sortListBy]
  | cons y ys ih =>
    rw [sortListBy, List.foldr_cons]
    rw [mem_insertSorted]
    rw [sortListBy] at ih
    simp [ih]

theorem PBT.truncation_selection_some (P count : ℕ) (rows : List PBTRow)
    (lower_is_better : Bool) (pick : ℕ) (d : PBTTrial)
    (h : PBT.truncation_selection P count rows lower_is_better pick = some d) :
    ∃ r, r ∈ rows ∧ r.status = "COMPLETED" ∧
      r.trial.generation = PBT.generationOf P count - 1 ∧ r.trial = d := by
  rw [PBT.truncation_selection] at h
  simp only [Option.map_eq_some'] at h
  obtain ⟨r, hget, hrd⟩ := h
  have hrmem := List.get?_mem hget
  rw [PBT.generation_df, mem_sortListBy, List.mem_filter, List.mem_filter] at hrmem
  obtain ⟨⟨h1, h2⟩, h3⟩ := hrmem
  exact ⟨r, h1, by simpa using h2, by simpa using h3, hrd⟩

theorem PBT.run_invariant (P T : ℕ) (lower_is_better : Bool)
    (s : ℕ → PBTTrial) (res : ℕ → List PBTRow) (pick : ℕ → ℕ)
    (hres : ∀ c, 1 ≤ c → c ≤ T → ∀ r ∈ res c, ∃ j, 1 ≤ j ∧ j < c ∧ r.trial = s j)
    (hstep : ∀ c, 1 ≤ c → c ≤ T →
      PBT.get_suggestion P (c - 1) (res c) lower_is_better (pick c) = some (s c)) :
    ∀ c, 1 ≤ c → c ≤ T →
      (s c).saveTo = c ∧
      (s c).generation = PBT.generationOf P c ∧
      PBT.chain s T ((s c).generation) (s c) := by
  intro c
  induction c using Nat.strong_induction_on with
  | _ c ih =>
    intro hc1 hcT
    have hs := hstep c hc1 hcT
    rw [PBT.get_suggestion] at hs
    have hcount : c - 1 + 1 = c := by omega
    rw [hcount] at hs
    by_cases hg : PBT.generationOf P c = 1
    · rw [if_pos hg] at hs
      simp only [Option.some.injEq] at hs
      rw [← hs]
      refine ⟨rfl, by rw [hg], ?_⟩
      have hgen : (PBTTrial.mk c none [] 1).generation = 1 := rfl
      rw [hgen, PBT.chain]
      exact Or.inl ⟨rfl, rfl, rfl⟩
    · rw [if_neg hg] at hs
      rw [Option.map_eq_some'] at hs
      obtain ⟨d, htr, hsd⟩ := hs
      obtain ⟨r, hrres, _, hrgen, hrd⟩ :=
        PBT.truncation_selection_some P c (res c) lower_is_better (pick c) d htr
      obtain ⟨j, hj1, hjc, hrj⟩ := hres c hc1 hcT r hrres
      have hdj : d = s j := by rw [← hrd, hrj]
      obtain ⟨ihs, ihg, ihchain⟩ := ih j hjc hj1 (by omega)
      have hgj : (s j).generation = PBT.generationOf P c - 1 := by
        rw [← hrj, hrgen]
      rw [← hsd, hdj]
      have hg1 : 1 < PBT.generationOf P c := by
        have h2 : 1 ≤ PBT.generationOf P c := Nat.le_add_left 1 _
        omega
      refine ⟨rfl, rfl, ?_⟩
      have hgen2 : (PBTTrial.mk c (some ((s j).saveTo))
          ((s j).lineage ++ [(s j).saveTo]) (PBT.generationOf P c)).generation
          = PBT.generationOf P c := rfl
      rw [hgen2]
      obtain ⟨g2, hg2⟩ : ∃ g2, PBT.generationOf P c = g2 + 1 :=
        ⟨PBT.generationOf P c - 1, by omega⟩
      rw [hg2, PBT.chain]
      refine Or.inr ⟨by simp; omega, j, hj1, by omega, ?_, ?_, ?_, ?_⟩
      · simp [hgj, hg2]
      · rfl
      · rfl
      · have he : g2 = (s j).generation := by omega
        rw [he]
        exact ihchain

/-- C8: In any `PopulationBasedTraining` run — suggestions `s 1, ..., s T`
produced by successive `get_suggestion` calls, with every row of every
results table carrying the bookkeeping fields of some earlier suggestion —
suggestion `c` has `save_to = c` and the generation number
`(c-1)/population_size + 1`; generation-1 suggestions carry empty `lineage`
and `load_from`; every suggestion of generation `g > 1` has `load_from`
equal to the `save_to` of exactly one generation `g-1` suggestion; and its
lineage is an unbroken comma-separated chain of ancestor `save_to`
identifiers ending at a generation-1 trial with empty lineage
(`PBT.chain`). -/
theorem pbt_lineage_invariant (P T : ℕ) (lower_is_better : Bool)
    (s : ℕ → PBTTrial) (res : ℕ → List PBTRow) (pick : ℕ → ℕ)
    (hres : ∀ c, 1 ≤ c → c ≤ T → ∀ r ∈ res c, ∃ j, 1 ≤ j ∧ j < c ∧ r.trial = s j)
    (hstep : ∀ c, 1 ≤ c → c ≤ T →
      PBT.get_suggestion P (c - 1) (res c) lower_is_better (pick c) = some (s c)) :
    ∀ c, 1 ≤ c → c ≤ T →
      (s c).saveTo = c ∧
      (s c).generation = PBT.generationOf P c ∧
      ((s c).generation = 1 → (s c).loadFrom = none ∧ (s c).lineage = []) ∧
      (1 < (s c).generation →
        ∃! j, 1 ≤ j ∧ j ≤ T ∧ (s j).generation = (s c).generation - 1 ∧
          (s c).loadFrom = some ((s j).saveTo)) ∧
      PBT.chain s T ((s c).generation) (s c) := by
  have hmain := PBT.run_invariant P T lower_is_better s res pick hres hstep
  intro c hc1 hcT
  obtain ⟨hsave, hgen, hchain⟩ := hmain c hc1 hcT
  refine ⟨hsave, hgen, ?_, ?_, hchain⟩
  · intro hg1
    obtain ⟨g2, hg2⟩ : ∃ g2, (s c).generation = g2 + 1 := ⟨0, by omega⟩
    rw [hg2, PBT.chain] at hchain
    rcases hchain with ⟨_, hlin, hload⟩ | ⟨hgt, _⟩
    · exact ⟨hload, hlin⟩
    · omega
  · intro hg1
    obtain ⟨g2, hg2⟩ : ∃ g2, (s c).generation = g2 + 1 :=
      ⟨(s c).generation - 1, by omega⟩
    rw [hg2, PBT.chain] at hchain
    rcases hchain with ⟨heq, _, _⟩ | ⟨_, j, hj1, hjT, hjgen, hload, _, _⟩
    · omega
    · refine ⟨j, ⟨hj1, hjT, hjgen, hload⟩, ?_⟩
      rintro j2 ⟨hj21, hj2T, hj2gen, hload2⟩
      have e1 : (s j).saveTo = j := (hmain j hj1 hjT).1
      have e2 : (s j2).saveTo = j2 := (hmain j2 hj21 hj2T).1
      rw [hload] at hload2
      simp only [Option.some.injEq] at hload2
      omega

/-- Witness for `pbt_lineage_invariant`: the generation-2 suggestion of the
concrete run. -/
theorem pbt_lineage_invariant_witness :
    (pbtWitTrials 2).saveTo = 2 ∧
    (pbtWitTrials 2).generation = PBT.generationOf 1 2 ∧
    ((pbtWitTrials 2).generation = 1 →
      (pbtWitTrials 2).loadFrom = none ∧ (pbtWitTrials 2).lineage = []) ∧
    (1 < (pbtWitTrials 2).generation →
      ∃! j, 1 ≤ j ∧ j ≤ 2 ∧
        (pbtWitTrials j).generation = (pbtWitTrials 2).generation - 1 ∧
        (pbtWitTrials 2).loadFrom = some ((pbtWitTrials j).saveTo)) ∧
    PBT.chain pbtWitTrials 2 ((pbtWitTrials 2).generation) (pbtWitTrials 2) := by
  have h := pbt_lineage_invariant 1 2 true pbtWitTrials pbtWitRes (fun _ => 0)
    (by
      intro c hc1 hcT r hr
      interval_cases c
      · simp [pbtWitRes] at hr
      · refine ⟨1, by omega, by omega, ?_⟩
        simp [pbtWitRes] at hr
        rw [hr]
        rfl)
    (by
      intro c hc1 hcT
      interval_cases c
      · decide
      · decide)
  exact h 2 (by omega) (by omega)
